import Mathlib

/-!
Verification of the Chia-Py-RPC client library.

The repository is a thin JSON-RPC client: every public method builds a JSON
payload from its arguments, posts it to `<base_url><rpc_name>`, and parses the
JSON response.  This development embeds:

* the JSON value space exchanged with the daemon (`Json`),
* Python's `json.dumps(v, indent=4, sort_keys=True)` serializer and the
  `json.loads` parser on the integer/ASCII subset the client exchanges,
* the request each wrapper method constructs (`RpcRequest`), taken method by
  method from `src/chia_py_rpc/wallet.py` (the later revision) and from
  `ChiaRPC.py` (the earlier revision),
* the per-call transport/error pipeline of both revisions,
* the batch/aggregation logic of `cats_out_the_bag.py`.
-/

set_option autoImplicit false

/-- JSON values on the subset this client exchanges with the daemon:
null, booleans, integer numbers, strings, arrays and objects.  Objects are
finite sequences of key/value pairs in insertion order, mirroring Python
dicts (floats and non-scalar keys do not occur in any payload the library
builds). -/
inductive Json where
  | null : Json
  | bool (b : Bool) : Json
  | num (n : Int) : Json
  | str (s : String) : Json
  | arr (xs : List Json) : Json
  | obj (kvs : List (String × Json)) : Json

/-- Python `None` becomes JSON `null` when a payload containing it is passed
to `json.dumps` (as `CatWallet.select_coins` does with its optional
arguments). -/
def optJson : Option Json → Json
  | none => Json.null
  | some j => j

/-- The members one `if arg is not None: payload[key] = enc(arg)` statement
appends to a payload dict: none when the argument was left at `None`. -/
def optField {β : Type} (key : String) (enc : β → Json) :
    Option β → List (String × Json)
  | none => []
  | some v => [(key, enc v)]

/-- Python `str.lower` on one character, on the ASCII range (the asset ids
passed to `cancel_offers` are ASCII hex strings or `"xch"`). -/
def pyLowerChar (c : Char) : Char :=
  if 65 ≤ c.toNat ∧ c.toNat ≤ 90 then Char.ofNat (c.toNat + 32) else c

/-- Python `str.lower` on the ASCII subset, character by character. -/
def pyLower (s : String) : String := ⟨s.data.map pyLowerChar⟩

/-! ## Requests built by the wrapper methods

Each wrapper method constructs a payload dict and passes it, together with a
fixed RPC endpoint name, to `WalletRPCConnect.submit` (later revision,
`src/chia_py_rpc/wallet.py`) or `ChiaRPC.submit` (earlier revision,
`ChiaRPC.py`).  `RpcRequest` records that pair. -/

/-- The endpoint name and payload a wrapper method hands to `submit`. -/
structure RpcRequest where
  call : String
  params : Json

namespace SharedMethods

/-- Payload and endpoint of `SharedMethods.close_connection` (wallet.py 25-43). -/
def close_connection_request (node_id : String) : RpcRequest :=
  ⟨"close_connection", Json.obj [("node_id", Json.str node_id)]⟩

/-- Payload and endpoint of `SharedMethods.get_connections` (wallet.py 45-62). -/
def get_connections_request : RpcRequest :=
  ⟨"get_connections", Json.obj []⟩

/-- Payload and endpoint of `SharedMethods.get_routes` (wallet.py 64-81). -/
def get_routes_request : RpcRequest :=
  ⟨"get_routes", Json.obj []⟩

/-- Payload and endpoint of `SharedMethods.check_healthz` (wallet.py 83-100):
the method is named `check_healthz` but submits the endpoint `healthz`. -/
def check_healthz_request : RpcRequest :=
  ⟨"healthz", Json.obj []⟩

/-- Payload and endpoint of `SharedMethods.open_connection` (wallet.py 102-123). -/
def open_connection_request (ip : String) (port : Int) : RpcRequest :=
  ⟨"open_connection", Json.obj [("ip", Json.str ip), ("port", Json.num port)]⟩

/-- Payload and endpoint of `SharedMethods.stop_node` (wallet.py 125-142). -/
def stop_node_request : RpcRequest :=
  ⟨"stop_node", Json.obj []⟩

end SharedMethods

namespace CatWallet

/-- Payload and endpoint of `CatWallet.cancel_offers` (wallet.py 163-196):
the `asset_id` value is lowercased, the other fields are passed through. -/
def cancel_offers_request (secure : Bool) (batch_fee : Int := 0)
    (batch_size : Int := 5) (cancel_all : Bool := false)
    (asset_id : String := "xch") : RpcRequest :=
  ⟨"cancel_offers", Json.obj
    [("secure", Json.bool secure),
     ("batch_fee", Json.num batch_fee),
     ("batch_size", Json.num batch_size),
     ("cancel_all", Json.bool cancel_all),
     ("asset_id", Json.str (pyLower asset_id))]⟩

/-- Payload and endpoint of `CatWallet.cat_asset_id_to_name` (wallet.py 198-214). -/
def cat_asset_id_to_name_request (asset_id : String) : RpcRequest :=
  ⟨"cat_asset_id_to_name", Json.obj [("asset_id", Json.str asset_id)]⟩

/-- Payload and endpoint of `CatWallet.select_coins` (wallet.py 550-585).
All six keys are always present; the three optional arguments are placed in
the dict unconditionally, so an argument left at `None` is serialized as
JSON `null` (`optJson none = Json.null`). -/
def select_coins_request (wallet_id amount min_coin_amount : Int)
    (excluded_coins : Option (List Json) := none)
    (max_coin_amount : Option Int := none)
    (exclude_coin_amounts : Option (List Int) := none) : RpcRequest :=
  ⟨"select_coins", Json.obj
    [("wallet_id", Json.num wallet_id),
     ("amount", Json.num amount),
     ("min_coin_amount", Json.num min_coin_amount),
     ("excluded_coins", optJson (excluded_coins.map Json.arr)),
     ("max_coin_amount", optJson (max_coin_amount.map Json.num)),
     ("exclude_coin_amounts",
      optJson (exclude_coin_amounts.map fun l => Json.arr (l.map Json.num)))]⟩

end CatWallet

namespace DidWallet

/-- Payload and endpoint of `DidWallet.did_get_did` (wallet.py 725-742). -/
def did_get_did_request (wallet_id : Int) : RpcRequest :=
  ⟨"did_get_did", Json.obj [("wallet_id", Json.num wallet_id)]⟩

end DidWallet

namespace Wallet

/-- Payload and endpoint of `Wallet.get_wallet_balance` (wallet.py 1763-1780). -/
def get_wallet_balance_request (wallet_id : Int) : RpcRequest :=
  ⟨"get_wallet_balance", Json.obj [("wallet_id", Json.num wallet_id)]⟩

/-- Payload and endpoint of `Wallet.get_wallet_transaction_count`
(wallet.py 1698-1715): the method is named `get_wallet_transaction_count`
but submits the endpoint `get_transaction_count`. -/
def get_wallet_transaction_count_request (wallet_id : Int) : RpcRequest :=
  ⟨"get_transaction_count", Json.obj [("wallet_id", Json.num wallet_id)]⟩

/-- Payload and endpoint of `Wallet.send_transaction` (wallet.py 1782-1840).
The required keys `wallet_id`, `amount`, `address` and `reuse_puzhash` are
always present; each optional argument is appended to the dict only when it
is not `None`, in the order of the `if` statements in the source. -/
def send_transaction_request (wallet_id amount : Int) (address : String)
    (fee : Option Int := none) (memos : Option (List String) := none)
    (min_coin_amount : Option Int := none)
    (max_coin_amount : Option Int := none)
    (exclude_coin_amounts : Option (List Int) := none)
    (exclude_coin_ids : Option (List String) := none)
    (reuse_puzhash : Bool := true) : RpcRequest :=
  ⟨"send_transaction", Json.obj
    ([("wallet_id", Json.num wallet_id),
      ("amount", Json.num amount),
      ("address", Json.str address),
      ("reuse_puzhash", Json.bool reuse_puzhash)]
     ++ optField "fee" Json.num fee
     ++ optField "memos" (fun v => Json.arr (v.map Json.str)) memos
     ++ optField "min_coin_amount" Json.num min_coin_amount
     ++ optField "max_coin_amount" Json.num max_coin_amount
     ++ optField "exclude_coin_amounts"
          (fun v => Json.arr (v.map Json.num)) exclude_coin_amounts
     ++ optField "exclude_coin_ids"
          (fun v => Json.arr (v.map Json.str)) exclude_coin_ids)⟩

/-- Payload and endpoint of `Wallet.send_transaction_multi` (wallet.py
1842-1890): `wallet_id`, `additions` and `fee` are always present, the three
remaining arguments are appended only when not `None`. -/
def send_transaction_multi_request (wallet_id : Int) (additions : List Json)
    (fee : Int := 0) (coins : Option (List Json) := none)
    (coin_announcements : Option String := none)
    (puzzle_announcements : Option String := none) : RpcRequest :=
  ⟨"send_transaction_multi", Json.obj
    ([("wallet_id", Json.num wallet_id),
      ("additions", Json.arr additions),
      ("fee", Json.num fee)]
     ++ optField "coins" Json.arr coins
     ++ optField "coin_announcements" Json.str coin_announcements
     ++ optField "puzzle_announcements" Json.str puzzle_announcements)⟩

end Wallet

namespace WalletNode

/-- Payload and endpoint of `WalletNode.push_transaction` (wallet.py
2057-2075): the method is named `push_transaction` but submits the endpoint
`push_tx`. -/
def push_transaction_request (transactions : List Json) : RpcRequest :=
  ⟨"push_tx", Json.obj [("transactions", Json.arr transactions)]⟩

end WalletNode

namespace ChiaRPCV1

/-- Payload and endpoint of the earlier revision's
`SharedMethods.close_connection` (ChiaRPC.py 62-81). -/
def close_connection_request (node_id : String) : RpcRequest :=
  ⟨"close_connection", Json.obj [("node_id", Json.str node_id)]⟩

/-- Payload and endpoint of the earlier revision's `CatWallet.cancel_offers`
(ChiaRPC.py 195-218): same five fields as the later revision, in the
source's own dict order, with `asset_id` lowercased. -/
def cancel_offers_request (batch_fee : Int := 0) (secure : Bool := true)
    (batch_size : Int := 5) (cancel_all : Bool := false)
    (asset_id : String := "xch") : RpcRequest :=
  ⟨"cancel_offers", Json.obj
    [("batch_fee", Json.num batch_fee),
     ("secure", Json.bool secure),
     ("batch_size", Json.num batch_size),
     ("cancel_all", Json.bool cancel_all),
     ("asset_id", Json.str (pyLower asset_id))]⟩

end ChiaRPCV1

/-! ## Sorting object keys

`submit` re-serializes every response with `json.dumps(response_json,
indent=4, sort_keys=True)` (rpc_connect.py 81).  `sort_keys=True` orders the
keys of every object, recursively, by Python string comparison, which is
lexicographic on code points.  Python `sorted` is stable, and on a total
preorder every stable sort computes the same list, so a stable insertion
sort reproduces it exactly. -/

/-- Lexicographic comparison of character lists by code point, Python `str`
order. -/
def charListLe : List Char → List Char → Bool
  | [], _ => true
  | _ :: _, [] => false
  | a :: as, b :: bs =>
    if a.toNat < b.toNat then true
    else if b.toNat < a.toNat then false
    else charListLe as bs

/-- Python `str` comparison `a <= b` by code points. -/
def strLe (a b : String) : Bool := charListLe a.data b.data

/-- Insert `x` into a sorted list, before the first element not below it
(stable: an equal element already present stays behind `x`only when it came
first, as in Python sorted). -/
def insertSorted {α : Type} (le : α → α → Bool) (x : α) : List α → List α
  | [] => [x]
  | y :: ys => if le x y then x :: y :: ys else y :: insertSorted le x ys

/-- Stable insertion sort; agrees with Python `sorted` for a total preorder. -/
def stableSort {α : Type} (le : α → α → Bool) : List α → List α
  | [] => []
  | x :: xs => insertSorted le x (stableSort le xs)

/-- Order on object members used by `sort_keys=True`: by key string. -/
def keyLe (a b : String × Json) : Bool := strLe a.1 b.1

mutual
/-- The value Python holds after re-parsing
`json.dumps(v, sort_keys=True)`: every object in `v` has its members
reordered by key, recursively. -/
def sortKeysJson : Json → Json
  | .null => .null
  | .bool b => .bool b
  | .num n => .num n
  | .str s => .str s
  | .arr xs => .arr (sortKeysList xs)
  | .obj kvs => .obj (stableSort keyLe (sortKeysKvs kvs))
def sortKeysList : List Json → List Json
  | [] => []
  | x :: xs => sortKeysJson x :: sortKeysList xs
def sortKeysKvs : List (String × Json) → List (String × Json)
  | [] => []
  | (k, v) :: kvs => (k, sortKeysJson v) :: sortKeysKvs kvs
end

mutual
/-- Equality of parsed JSON documents as Python `==` compares them: equal
scalars, elementwise-equal arrays, and objects equal as key→value maps,
i.e. some reordering of the members of one matches the other key by key and
value by value. -/
inductive jsonSim : Json → Json → Prop where
  | null : jsonSim Json.null Json.null
  | bool (b : Bool) : jsonSim (Json.bool b) (Json.bool b)
  | num (n : Int) : jsonSim (Json.num n) (Json.num n)
  | str (s : String) : jsonSim (Json.str s) (Json.str s)
  | arr {xs ys : List Json} : jsonSimList xs ys →
      jsonSim (Json.arr xs) (Json.arr ys)
  | obj {kvs l kvs2 : List (String × Json)} : kvs.Perm l →
      jsonSimKvs l kvs2 → jsonSim (Json.obj kvs) (Json.obj kvs2)
inductive jsonSimList : List Json → List Json → Prop where
  | nil : jsonSimList [] []
  | cons {x y : Json} {xs ys : List Json} : jsonSim x y →
      jsonSimList xs ys → jsonSimList (x :: xs) (y :: ys)
inductive jsonSimKvs : List (String × Json) → List (String × Json) → Prop where
  | nil : jsonSimKvs [] []
  | cons {k : String} {v v2 : Json} {kvs kvs2 : List (String × Json)} :
      jsonSim v v2 → jsonSimKvs kvs kvs2 →
      jsonSimKvs ((k, v) :: kvs) ((k, v2) :: kvs2)
end

/-! ## The serializer

`json.dumps(v, indent=4, sort_keys=True)` on the exchanged subset:
scalars print as `null`/`true`/`false`/decimal integers/quoted strings;
a non-empty array prints `[`, a newline, each element indented one level
deeper and separated by `,` plus newline, then a newline, the closing
indent and `]`; objects likewise with `"key": value` members. -/

/-- Decimal digit character: `digitChar d` is `0`..`9` for `d < 10`. -/
def digitChar (d : Nat) : Char := Char.ofNat (48 + d)

/-- Little-endian decimal digits of `n`, with explicit descent fuel. -/
def natDigitsRev : Nat → Nat → List Nat
  | 0, _ => []
  | fuel + 1, n => if n = 0 then [] else n % 10 :: natDigitsRev fuel (n / 10)

/-- Big-endian decimal digits of a positive `n`. -/
def natDigits (n : Nat) : List Nat := (natDigitsRev n n).reverse

/-- The number a little-endian digit list denotes. -/
def digitsValRev : List Nat → Nat
  | [] => 0
  | d :: ds => d + 10 * digitsValRev ds

/-- Decimal rendering of a natural number, as Python prints ints. -/
def printNat (n : Nat) : List Char :=
  if n = 0 then ['0'] else (natDigits n).map digitChar

/-- Decimal rendering of an integer, as Python prints ints. -/
def printInt : Int → List Char
  | .ofNat n => printNat n
  | .negSucc m => '-' :: printNat (m + 1)

/-- The `indent=4` prefix for nesting level `lvl`. -/
def indentChars (lvl : Nat) : List Char := List.replicate (4 * lvl) ' '

mutual
/-- Characters of `json.dumps(w, indent=4)` at nesting level `lvl`,
for a value whose strings need no escaping (see `wfJson`). -/
def emitVal : Nat → Json → List Char
  | _, .null => ['n', 'u', 'l', 'l']
  | _, .bool true => ['t', 'r', 'u', 'e']
  | _, .bool false => ['f', 'a', 'l', 's', 'e']
  | _, .num n => printInt n
  | _, .str s => '"' :: (s.data ++ ['"'])
  | _, .arr [] => ['[', ']']
  | lvl, .arr (x :: xs) =>
    '[' :: '\n' :: (indentChars (lvl + 1) ++
      (emitVal (lvl + 1) x ++ (emitItems (lvl + 1) xs ++
        ('\n' :: (indentChars lvl ++ [']'])))))
  | _, .obj [] => ['\x7b', '\x7d']
  | lvl, .obj (kv :: kvs) =>
    '\x7b' :: '\n' :: (indentChars (lvl + 1) ++
      (emitMember (lvl + 1) kv ++ (emitMembers (lvl + 1) kvs ++
        ('\n' :: (indentChars lvl ++ ['\x7d'])))))
/-- The `,`-separated items after the first array element. -/
def emitItems : Nat → List Json → List Char
  | _, [] => []
  | lvl, x :: xs =>
    ',' :: '\n' :: (indentChars lvl ++ (emitVal lvl x ++ emitItems lvl xs))
/-- One `"key": value` object member. -/
def emitMember : Nat → String × Json → List Char
  | lvl, (k, v) => '"' :: (k.data ++ ('"' :: ':' :: ' ' :: emitVal lvl v))
/-- The `,`-separated members after the first object member. -/
def emitMembers : Nat → List (String × Json) → List Char
  | _, [] => []
  | lvl, kv :: kvs =>
    ',' :: '\n' :: (indentChars lvl ++ (emitMember lvl kv ++ emitMembers lvl kvs))
end

/-- `json.dumps(v, indent=4, sort_keys=True)` (rpc_connect.py 81). -/
def dumps (v : Json) : String := ⟨emitVal 0 (sortKeysJson v)⟩

/-! ## The parser

`json.loads` on the same subset (integer numbers; strings with the
single-character escapes; no `\u`, float, `NaN` or `Infinity` forms, which
no payload of this client uses).  Character comparisons are by code point
(`'n'` is 110, `'t'` 116, `'f'` 102, `'"'` 34, `'['` 91, `']'` 93, `'-'` 45,
`','` 44, `':'` 58, braces 123/125). -/

/-- JSON whitespace: space, newline, tab, carriage return. -/
def isWsChar (c : Char) : Bool :=
  c.toNat = 32 || c.toNat = 10 || c.toNat = 9 || c.toNat = 13

/-- Drop leading JSON whitespace. -/
def skipWs : List Char → List Char
  | [] => []
  | c :: cs => if isWsChar c then skipWs cs else c :: cs

/-- Decimal digit test. -/
def isDigitChar (c : Char) : Bool := 48 ≤ c.toNat && c.toNat ≤ 57

/-- Numeric value of a digit character. -/
def digitVal (c : Char) : Nat := c.toNat - 48

/-- Consume a maximal run of digits, folding them onto `acc`. -/
def parseDigitsAux : List Char → Nat → Nat × List Char
  | [], acc => (acc, [])
  | c :: cs, acc =>
    if isDigitChar c then parseDigitsAux cs (acc * 10 + digitVal c)
    else (acc, c :: cs)

/-- Parse a non-empty digit run as a natural number. -/
def parseNat : List Char → Option (Nat × List Char)
  | [] => none
  | c :: cs => if isDigitChar c then some (parseDigitsAux cs (digitVal c)) else none

/-- The single-character string escapes `json.loads` accepts. -/
def escChar (c : Char) : Option Char :=
  if c.toNat = 34 then some '"'
  else if c.toNat = 92 then some '\\'
  else if c.toNat = 47 then some '/'
  else if c.toNat = 98 then some (Char.ofNat 8)
  else if c.toNat = 102 then some (Char.ofNat 12)
  else if c.toNat = 110 then some '\n'
  else if c.toNat = 114 then some '\r'
  else if c.toNat = 116 then some '\t'
  else none

mutual
/-- Parse a string body up to and including the closing quote, returning the
content and the remaining input.  Control characters are rejected, as in
`json.loads`. -/
def parseStringBody : List Char → Option (List Char × List Char)
  | [] => none
  | c :: cs =>
    if c.toNat = 34 then some ([], cs)
    else if c.toNat = 92 then parseEscape cs
    else if c.toNat < 32 then none
    else (parseStringBody cs).map fun p => (c :: p.1, p.2)
/-- Parse the character after a backslash and the rest of the string body. -/
def parseEscape : List Char → Option (List Char × List Char)
  | [] => none
  | e :: cs =>
    match escChar e with
    | none => none
    | some u => (parseStringBody cs).map fun p => (u :: p.1, p.2)
end

/-- After an object key: optional whitespace, then the `:` separator. -/
def expectColon (cs : List Char) : Option (List Char) :=
  match skipWs cs with
  | [] => none
  | c :: r => if c.toNat = 58 then some r else none

/-- Before an object key: optional whitespace, then the opening quote. -/
def expectQuote (cs : List Char) : Option (List Char) :=
  match skipWs cs with
  | [] => none
  | c :: r => if c.toNat = 34 then some r else none

/-- Consume the exact literal `ps` from the input. -/
def dropLit : List Char → List Char → Option (List Char)
  | [], cs => some cs
  | _ :: _, [] => none
  | p :: ps, c :: cs => if c.toNat = p.toNat then dropLit ps cs else none

mutual
/-- Parse one JSON value after optional whitespace.  The fuel only bounds
the recursion depth; `loads` supplies more than any input can consume. -/
def parseVal : Nat → List Char → Option (Json × List Char)
  | 0, _ => none
  | fuel + 1, cs =>
    match skipWs cs with
    | [] => none
    | c :: r =>
      if c.toNat = 110 then (dropLit ['u', 'l', 'l'] r).map fun r2 => (Json.null, r2)
      else if c.toNat = 116 then (dropLit ['r', 'u', 'e'] r).map fun r2 => (Json.bool true, r2)
      else if c.toNat = 102 then (dropLit ['a', 'l', 's', 'e'] r).map fun r2 => (Json.bool false, r2)
      else if c.toNat = 34 then (parseStringBody r).map fun p => (Json.str ⟨p.1⟩, p.2)
      else if c.toNat = 91 then (parseElems fuel r).map fun p => (Json.arr p.1, p.2)
      else if c.toNat = 123 then (parseKvs fuel r).map fun p => (Json.obj p.1, p.2)
      else if c.toNat = 45 then (parseNat r).map fun p => (Json.num (-(p.1 : Int)), p.2)
      else if isDigitChar c then (parseNat (c :: r)).map fun p => (Json.num (p.1 : Int), p.2)
      else none
/-- Parse the elements after `[`: either `]` at once or a first value
followed by the element tail. -/
def parseElems : Nat → List Char → Option (List Json × List Char)
  | 0, _ => none
  | fuel + 1, cs =>
    match skipWs cs with
    | [] => none
    | c :: r =>
      if c.toNat = 93 then some ([], r)
      else
        match parseVal fuel (c :: r) with
        | none => none
        | some (v, r1) =>
          match parseElemsTail fuel r1 with
          | none => none
          | some (vs, r2) => some (v :: vs, r2)
/-- After one array element: `]` ends the array, `,` demands another
element. -/
def parseElemsTail : Nat → List Char → Option (List Json × List Char)
  | 0, _ => none
  | fuel + 1, cs =>
    match skipWs cs with
    | [] => none
    | c :: r =>
      if c.toNat = 93 then some ([], r)
      else if c.toNat = 44 then
        match parseVal fuel r with
        | none => none
        | some (v, r1) =>
          match parseElemsTail fuel r1 with
          | none => none
          | some (vs, r2) => some (v :: vs, r2)
      else none
/-- Parse the members after a `\x7b`: either `\x7d` at once or a first
`"key": value` member followed by the member tail. -/
def parseKvs : Nat → List Char → Option (List (String × Json) × List Char)
  | 0, _ => none
  | fuel + 1, cs =>
    match skipWs cs with
    | [] => none
    | c :: r =>
      if c.toNat = 125 then some ([], r)
      else if c.toNat = 34 then
        match parseStringBody r with
        | none => none
        | some (k, r1) =>
          match expectColon r1 with
          | none => none
          | some r2 =>
            match parseVal fuel r2 with
            | none => none
            | some (v, r3) =>
              match parseKvsTail fuel r3 with
              | none => none
              | some (ms, r4) => some ((⟨k⟩, v) :: ms, r4)
      else none
/-- After one object member: `\x7d` ends the object, `,` demands another
member. -/
def parseKvsTail : Nat → List Char → Option (List (String × Json) × List Char)
  | 0, _ => none
  | fuel + 1, cs =>
    match skipWs cs with
    | [] => none
    | c :: r =>
      if c.toNat = 125 then some ([], r)
      else if c.toNat = 44 then
        match expectQuote r with
        | none => none
        | some r1 =>
          match parseStringBody r1 with
          | none => none
          | some (k, r2) =>
            match expectColon r2 with
            | none => none
            | some r3 =>
              match parseVal fuel r3 with
              | none => none
              | some (v, r4) =>
                match parseKvsTail fuel r4 with
                | none => none
                | some (ms, r5) => some ((⟨k⟩, v) :: ms, r5)
      else none
end

/-- `json.loads` on the modelled subset.  One unit of fuel is spent per
nesting level and every level consumes at least one bracket character, so
`length + 1` fuel never runs out before the input does; trailing
non-whitespace is an error, as in Python. -/
def loads (s : String) : Option Json :=
  match parseVal (s.data.length + 1) s.data with
  | none => none
  | some (v, rest) => if skipWs rest = [] then some v else none

/-! ## The transport pipeline

`submit` (rpc_connect.py 62-81) posts the payload and then runs
`json.loads(response.text)` followed by `json.dumps(..., indent=4,
sort_keys=True)`.  A wrapper method then applies `json.loads` to the string
`submit` returns.  `requests.post` can raise (connection refused, timeout)
and `json.loads` raises on a malformed body; `Transport` maps the submitted
request either to such an exception message or to the response body text. -/

/-- What the HTTP round trip does with one request: raise (left, the
exception message) or deliver the response body text. -/
def Transport : Type := RpcRequest → Except String String

/-- Representative message of the `json.JSONDecodeError` raised when a
response body is not JSON (the real message also carries a position). -/
def decodeErrorMsg : String := "Expecting value: line 1 column 1 (char 0)"

/-- Result of `submit` (rpc_connect.py 62-81): the transport exception or
decode exception propagates, otherwise the re-serialized response text is
returned. -/
def submitResult (t : Transport) (req : RpcRequest) : Except String String :=
  match t req with
  | .error e => .error e
  | .ok body =>
    match loads body with
    | none => .error decodeErrorMsg
    | some v => .ok (dumps v)

/-- A wrapper method body without `try`/`except` (every class of wallet.py
from `DidWallet` on, and every method of ChiaRPC.py): `submit` then
`json.loads` of its result, any exception escaping to the caller. -/
def rawCall (t : Transport) (req : RpcRequest) : Except String Json :=
  match submitResult t req with
  | .error e => .error e
  | .ok s =>
    match loads s with
    | none => .error decodeErrorMsg
    | some v => .ok v

/-- A wrapper method body wrapped in `try: ... except Exception as e:
return ("error": str(e))` (every `SharedMethods` and `CatWallet` method of
wallet.py). -/
def guardedCall (t : Transport) (req : RpcRequest) : Json :=
  match rawCall t req with
  | .ok v => v
  | .error e => Json.obj [("error", Json.str e)]

/-- `SharedMethods.close_connection` (wallet.py 25-43), call semantics. -/
def SharedMethods.close_connection (node_id : String) (t : Transport) : Json :=
  guardedCall t (SharedMethods.close_connection_request node_id)

/-- `SharedMethods.check_healthz` (wallet.py 83-100), call semantics. -/
def SharedMethods.check_healthz (t : Transport) : Json :=
  guardedCall t SharedMethods.check_healthz_request

/-- `CatWallet.cancel_offers` (wallet.py 163-196), call semantics. -/
def CatWallet.cancel_offers (secure : Bool) (batch_fee : Int) (batch_size : Int)
    (cancel_all : Bool) (asset_id : String) (t : Transport) : Json :=
  guardedCall t (CatWallet.cancel_offers_request secure batch_fee batch_size cancel_all asset_id)

/-- `CatWallet.select_coins` (wallet.py 550-585), call semantics. -/
def CatWallet.select_coins (wallet_id amount min_coin_amount : Int)
    (excluded_coins : Option (List Json)) (max_coin_amount : Option Int)
    (exclude_coin_amounts : Option (List Int)) (t : Transport) : Json :=
  guardedCall t (CatWallet.select_coins_request wallet_id amount min_coin_amount
    excluded_coins max_coin_amount exclude_coin_amounts)

/-- `DidWallet.did_get_did` (wallet.py 725-742), call semantics: no
`try`/`except`, exceptions escape. -/
def DidWallet.did_get_did (wallet_id : Int) (t : Transport) : Except String Json :=
  rawCall t (DidWallet.did_get_did_request wallet_id)

/-- `Wallet.get_wallet_balance` (wallet.py 1763-1780), call semantics: no
`try`/`except`. -/
def Wallet.get_wallet_balance (wallet_id : Int) (t : Transport) : Except String Json :=
  rawCall t (Wallet.get_wallet_balance_request wallet_id)

/-- `SharedMethods.close_connection` of the earlier revision (ChiaRPC.py
62-81), call semantics: ChiaRPC.py has no `try`/`except` anywhere. -/
def ChiaRPCV1.close_connection (node_id : String) (t : Transport) : Except String Json :=
  rawCall t (ChiaRPCV1.close_connection_request node_id)

/-- `CatWallet.cancel_offers` of the earlier revision (ChiaRPC.py 195-218),
call semantics: exceptions escape. -/
def ChiaRPCV1.cancel_offers (batch_fee : Int) (secure : Bool) (batch_size : Int)
    (cancel_all : Bool) (asset_id : String) (t : Transport) : Except String Json :=
  rawCall t (ChiaRPCV1.cancel_offers_request batch_fee secure batch_size cancel_all asset_id)

/-! ## The connection object, `WalletRPCConnect` (rpc_connect.py) -/

namespace WalletRPCConnect

/-- The default base URL (rpc_connect.py 48). -/
def default_url : String := "https://localhost:9256/"

/-- `self.url = url or default_url` (rpc_connect.py 56): Python `or` falls
back to the default when `url` is `None` (and also when it is the empty
string, which is falsy). -/
def resolve_url : Option String → String
  | none => default_url
  | some u => if u = "" then default_url else u

/-- `self.cert = cert or default_cert` (rpc_connect.py 57): `None` falls
back to the default pair (the expanduser paths under `~/.chia`, environment
dependent, supplied here as `default_cert`); any supplied pair is truthy. -/
def resolve_cert (default_cert : String × String) :
    Option (String × String) → String × String
  | none => default_cert
  | some c => c

/-- One HTTPS POST as `requests.post` receives it in `submit`
(rpc_connect.py 73-78). -/
structure HttpPost where
  target : String
  body : String
  headers : List (String × String)
  cert : String × String
  verify : Bool

/-- The HTTP POSTs one `submit(chia_call, data)` call issues on a connection
constructed with `url`/`cert`: exactly the one `requests.post` of
rpc_connect.py 73-78, at `self.url + chia_call` with the instance headers
and certificate and `verify=False`. -/
def submit_posts (url : Option String) (cert : Option (String × String))
    (default_cert : String × String) (chia_call : String) (data : String) :
    List HttpPost :=
  [{ target := resolve_url url ++ chia_call,
     body := data,
     headers := [("Content-Type", "application/json")],
     cert := resolve_cert default_cert cert,
     verify := false }]

end WalletRPCConnect

/-! ## The batch script, cats_out_the_bag.py -/

namespace CatsOutTheBag

/-- The slices `addition_list[i * 25:(i + 1) * 25]` for
`i in range((len + 24) // 25)` (cats_out_the_bag.py 93-96). -/
def sliceBatches {α : Type} (l : List α) : List (List α) :=
  (List.range ((l.length + 24) / 25)).map fun i => (l.drop (i * 25)).take 25

/-- The `send_transaction_multi` requests `send_transactions`
(cats_out_the_bag.py 91-102) issues: one per non-empty batch, in order,
each with `fee=50000` and the pass-through optional arguments. -/
def send_transactions_requests (wallet_id : Int) (addition_list : List Json)
    (coins : Option (List Json)) (coin_announcements : Option String)
    (puzzle_announcements : Option String) : List RpcRequest :=
  (sliceBatches addition_list).filterMap fun batch =>
    if batch.isEmpty then none
    else some (Wallet.send_transaction_multi_request wallet_id batch 50000
      coins coin_announcements puzzle_announcements)

/-- One fetched NFT record as `nft_ownership_data` reads it: its
`encoded_id` and its `owner_address_encoded_id` (cats_out_the_bag.py 74-78). -/
structure NftItem where
  encoded_id : String
  owner_address_encoded_id : String

/-- One aggregated entry of the `nft_ownership_data` mapping
(cats_out_the_bag.py 79-86). -/
structure OwnerEntry where
  owner_address_decoded_id : String
  encoded_ids : List String
  nft_values : List Int
  nft_value : Int

/-- The `setdefault` + three updates for one `(item, nft_value)` pair
(cats_out_the_bag.py 74-86) on the insertion-ordered mapping: a fresh entry
is appended at the end, an existing entry is extended in place. -/
def addNft (addr eid : String) (v : Int) : List OwnerEntry → List OwnerEntry
  | [] => [⟨addr, [eid], [v], v⟩]
  | e :: es =>
    if e.owner_address_decoded_id = addr then
      { e with encoded_ids := e.encoded_ids ++ [eid],
               nft_values := e.nft_values ++ [v],
               nft_value := e.nft_value + v } :: es
    else e :: addNft addr eid v es

/-- `nft_ownership_data` (cats_out_the_bag.py 65-88).  Each collection is
given as the fetched `(item, nft_value)` pairs: the source zips
`data[items]` with a same-length value list (one value per item, from the
metadata fetch or the constant `amount_per_nft`).  `decode` is
`bech32m.decode_puzzle_hash`.  The returned list is the mapping's values in
insertion order. -/
def nft_ownership_data (decode : String → String)
    (collections : List (List (NftItem × Int))) : List OwnerEntry :=
  collections.foldl
    (fun acc items =>
      items.foldl
        (fun a p => addNft (decode p.1.owner_address_encoded_id) p.1.encoded_id p.2 a)
        acc)
    []

/-- The entry of the mapping stored under decoded address `a`. -/
def entryFor (a : String) : List OwnerEntry → Option OwnerEntry
  | [] => none
  | e :: es => if e.owner_address_decoded_id = a then some e else entryFor a es

/-- The `(encoded_id, nft_value)` pairs, across all collections in fetch
order, whose decoded owner address is `a`: what the entry of `a` should
have collected. -/
def ownedPairs (decode : String → String) (a : String)
    (ps : List (NftItem × Int)) : List (String × Int) :=
  (ps.filter fun p => decode p.1.owner_address_encoded_id = a).map
    fun p => (p.1.encoded_id, p.2)

/-- The entry the mapping should hold for address `a` given the pairs owned
by `a`: none when `a` owns nothing, otherwise the componentwise collection. -/
def expectedEntry (a : String) : List (String × Int) → Option OwnerEntry
  | [] => none
  | q :: qs => some
      ⟨a, (q :: qs).map Prod.fst, (q :: qs).map Prod.snd,
        ((q :: qs).map Prod.snd).sum⟩

/-- What one further owned pair does to the (possibly still absent) entry of
address `a`: exactly the `setdefault` + appends + sum update of
cats_out_the_bag.py 79-86, seen from one key. -/
def extendEntry (a : String) (e : Option OwnerEntry) (eid : String) (v : Int) :
    OwnerEntry :=
  match e with
  | none => ⟨a, [eid], [v], v⟩
  | some e =>
    { e with encoded_ids := e.encoded_ids ++ [eid],
             nft_values := e.nft_values ++ [v],
             nft_value := e.nft_value + v }

end CatsOutTheBag

/-! ## Python call binding for `SharedMethods.__init__` (wallet.py 10-23) -/

namespace PyCall

/-- The parameters `WalletRPCConnect.__init__` declares besides `self`
(rpc_connect.py 39-40): `url` and `cert` only. -/
def walletRPCConnect_init_params : List String := ["url", "cert"]

/-- The keyword arguments `SharedMethods.__init__` passes in
`WalletRPC(url=url, cert=cert, disable_warnings=disable_warnings)`
(wallet.py 23). -/
def sharedMethods_init_kwargs : List String := ["url", "cert", "disable_warnings"]

/-- Python keyword binding for a function without `**kwargs`: the call is
accepted exactly when every keyword names a declared parameter; otherwise
`TypeError` is raised before the body runs. -/
def kwargsBindOk (params kwargs : List String) : Bool :=
  kwargs.all params.contains

/-- Constructing `SharedMethods(url, cert, disable_warnings)` (wallet.py
10-23): the body's `WalletRPC(url=url, cert=cert,
disable_warnings=disable_warnings)` binds keywords against
`WalletRPCConnect.__init__`; the argument values play no role in binding. -/
def SharedMethods_init (url : Option String) (cert : Option (String × String))
    (disable_warnings : Bool) : Except String Unit :=
  if kwargsBindOk walletRPCConnect_init_params sharedMethods_init_kwargs
  then Except.ok ()
  else Except.error
    "TypeError: __init__ got an unexpected keyword argument disable_warnings"

end PyCall

/-! ## Well-formedness of exchanged values

The subset on which the serializer needs no escaping: printable ASCII
strings without quote or backslash, and objects with distinct keys (a
Python dict can never hold duplicates). -/

/-- A character `json.dumps` passes through verbatim inside a string. -/
def plainChar (c : Char) : Bool :=
  (32 ≤ c.toNat && c.toNat ≤ 126) && (c.toNat ≠ 34 && c.toNat ≠ 92)

/-- A string `json.dumps` prints verbatim between quotes. -/
def plainStr (s : String) : Bool := s.data.all plainChar

/-- Key membership in an object member list. -/
def keyMem (k : String) : List (String × Json) → Bool
  | [] => false
  | (k2, _) :: kvs => if k2 = k then true else keyMem k kvs

/-- All keys distinct, as in any list obtained from a Python dict. -/
def keysDistinct : List (String × Json) → Bool
  | [] => true
  | (k, _) :: kvs => !(keyMem k kvs) && keysDistinct kvs

mutual
/-- The exchanged subset: ASCII strings without escapes, objects with
distinct keys. -/
def wfJson : Json → Bool
  | .null => true
  | .bool _ => true
  | .num _ => true
  | .str s => plainStr s
  | .arr xs => wfList xs
  | .obj kvs => keysDistinct kvs && wfKvs kvs
def wfList : List Json → Bool
  | [] => true
  | x :: xs => wfJson x && wfList xs
def wfKvs : List (String × Json) → Bool
  | [] => true
  | (k, v) :: kvs => (plainStr k && wfJson v) && wfKvs kvs
end

/-- The member list of an object value (used to inspect payloads). -/
def Json.kvs : Json → List (String × Json)
  | .obj kvs => kvs
  | _ => []

/-- Input whose head cannot extend a decimal digit run. -/
def headNotDigitB : List Char → Bool
  | [] => true
  | c :: _ => !(isDigitChar c)

/-- All-whitespace character list. -/
def wsOnly (l : List Char) : Bool := l.all isWsChar

mutual
/-- Recursion-depth fuel adequate for parsing the printed form of `w`. -/
def jfuel : Json → Nat
  | .null => 1
  | .bool _ => 1
  | .num _ => 1
  | .str _ => 1
  | .arr xs => 2 + jfuelL xs
  | .obj kvs => 2 + jfuelK kvs
def jfuelL : List Json → Nat
  | [] => 0
  | x :: xs => 1 + jfuel x + jfuelL xs
def jfuelK : List (String × Json) → Nat
  | [] => 0
  | (_, v) :: kvs => 1 + jfuel v + jfuelK kvs
end

/-! # Theorems -/

theorem char_toNat_ofNat_of_lt {n : Nat} (h : n < 0xd800) :
    (Char.ofNat n).toNat = n := by
  rw [Char.ofNat, dif_pos (Or.inl h)]
  simp [Char.ofNatAux, Char.toNat, UInt32.toNat]

theorem pyLowerChar_idem (c : Char) :
    pyLowerChar (pyLowerChar c) = pyLowerChar c := by
  unfold pyLowerChar
  split
  · rename_i h
    have hv : (Char.ofNat (c.toNat + 32)).toNat = c.toNat + 32 :=
      char_toNat_ofNat_of_lt (by omega)
    rw [if_neg]
    rw [hv]
    omega
  · rfl

theorem pyLower_idem (s : String) : pyLower (pyLower s) = pyLower s := by
  unfold pyLower
  simp only [List.map_map]
  congr 1
  exact List.map_congr_left fun c _ => pyLowerChar_idem c

/-- C9: in the later revision, constructing `SharedMethods` raises
`TypeError` for every argument combination, because its `__init__` passes
the keyword `disable_warnings` to `WalletRPCConnect.__init__`, which
declares only `url` and `cert`; no `SharedMethods` method is reachable
through this constructor. -/
theorem sharedMethods_init_always_type_error
    (url : Option String) (cert : Option (String × String))
    (disable_warnings : Bool) :
    PyCall.SharedMethods_init url cert disable_warnings =
      Except.error
        "TypeError: __init__ got an unexpected keyword argument disable_warnings" :=
  rfl

/-- C6: for every call name and configuration, `submit` issues exactly one
HTTP POST, to the concatenation of the configured base URL and the call
name, with header `Content-Type: application/json`, the configured client
certificate pair, and `verify=False`; an unsupplied url falls back to the
default base URL `https://localhost:9256/`. -/
theorem submit_single_post (url : Option String)
    (cert : Option (String × String)) (default_cert : String × String)
    (chia_call data : String) :
    (WalletRPCConnect.submit_posts url cert default_cert chia_call data).length = 1 ∧
    (∀ p ∈ WalletRPCConnect.submit_posts url cert default_cert chia_call data,
      p.target = WalletRPCConnect.resolve_url url ++ chia_call ∧
      p.headers = [("Content-Type", "application/json")] ∧
      p.cert = WalletRPCConnect.resolve_cert default_cert cert ∧
      p.body = data ∧
      p.verify = false) ∧
    WalletRPCConnect.resolve_url none = "https://localhost:9256/" := by
  refine ⟨rfl, ?_, rfl⟩
  intro p hp
  simp only [WalletRPCConnect.submit_posts, List.mem_singleton] at hp
  subst hp
  exact ⟨rfl, rfl, rfl, rfl, rfl⟩

/-- C5 counterexample: `SharedMethods.check_healthz` does not submit its own
method name as the endpoint; it submits `healthz`. -/
theorem check_healthz_endpoint_mismatch :
    SharedMethods.check_healthz_request.call = "healthz" ∧
    SharedMethods.check_healthz_request.call ≠ "check_healthz" :=
  ⟨rfl, by decide⟩

/-- C5 (amended): every modelled wrapper method submits one fixed endpoint
name; it equals the method name except for `check_healthz` (submits
`healthz`), `get_wallet_transaction_count` (submits `get_transaction_count`)
and `push_transaction` (submits `push_tx`). -/
theorem endpoint_name_mapping (node_id : String) (ip : String) (port : Int)
    (secure : Bool) (batch_fee batch_size : Int) (cancel_all : Bool)
    (asset_id : String) (wallet_id amount min_coin_amount : Int)
    (ec : Option (List Json)) (mca : Option Int) (eca : Option (List Int))
    (address : String) (transactions : List Json) :
    (SharedMethods.close_connection_request node_id).call = "close_connection" ∧
    SharedMethods.get_connections_request.call = "get_connections" ∧
    SharedMethods.get_routes_request.call = "get_routes" ∧
    (SharedMethods.open_connection_request ip port).call = "open_connection" ∧
    SharedMethods.stop_node_request.call = "stop_node" ∧
    SharedMethods.check_healthz_request.call = "healthz" ∧
    (CatWallet.cancel_offers_request secure batch_fee batch_size cancel_all
      asset_id).call = "cancel_offers" ∧
    (CatWallet.cat_asset_id_to_name_request asset_id).call = "cat_asset_id_to_name" ∧
    (CatWallet.select_coins_request wallet_id amount min_coin_amount ec mca
      eca).call = "select_coins" ∧
    (DidWallet.did_get_did_request wallet_id).call = "did_get_did" ∧
    (Wallet.get_wallet_balance_request wallet_id).call = "get_wallet_balance" ∧
    (Wallet.send_transaction_request wallet_id amount address).call = "send_transaction" ∧
    (Wallet.get_wallet_transaction_count_request wallet_id).call = "get_transaction_count" ∧
    (WalletNode.push_transaction_request transactions).call = "push_tx" :=
  ⟨rfl, rfl, rfl, rfl, rfl, rfl, rfl, rfl, rfl, rfl, rfl, rfl, rfl, rfl⟩

/-- C10: in both revisions `cancel_offers` lowercases the asset identifier
and passes the other four fields through; lowercasing is idempotent, so the
payload built from `asset_id` equals the one built from its lowercase
form. -/
theorem cancel_offers_lowercases_asset_id (secure : Bool)
    (batch_fee batch_size : Int) (cancel_all : Bool) (asset_id : String) :
    (List.lookup "asset_id"
      (CatWallet.cancel_offers_request secure batch_fee batch_size cancel_all
        asset_id).params.kvs = some (Json.str (pyLower asset_id))) ∧
    (List.lookup "asset_id"
      (ChiaRPCV1.cancel_offers_request batch_fee secure batch_size cancel_all
        asset_id).params.kvs = some (Json.str (pyLower asset_id))) ∧
    CatWallet.cancel_offers_request secure batch_fee batch_size cancel_all
        (pyLower asset_id) =
      CatWallet.cancel_offers_request secure batch_fee batch_size cancel_all
        asset_id ∧
    ChiaRPCV1.cancel_offers_request batch_fee secure batch_size cancel_all
        (pyLower asset_id) =
      ChiaRPCV1.cancel_offers_request batch_fee secure batch_size cancel_all
        asset_id ∧
    (List.lookup "secure"
      (CatWallet.cancel_offers_request secure batch_fee batch_size cancel_all
        asset_id).params.kvs = some (Json.bool secure)) ∧
    (List.lookup "batch_fee"
      (CatWallet.cancel_offers_request secure batch_fee batch_size cancel_all
        asset_id).params.kvs = some (Json.num batch_fee)) ∧
    (List.lookup "batch_size"
      (CatWallet.cancel_offers_request secure batch_fee batch_size cancel_all
        asset_id).params.kvs = some (Json.num batch_size)) ∧
    (List.lookup "cancel_all"
      (CatWallet.cancel_offers_request secure batch_fee batch_size cancel_all
        asset_id).params.kvs = some (Json.bool cancel_all)) := by
  refine ⟨rfl, rfl, ?_, ?_, rfl, rfl, rfl, rfl⟩
  · unfold CatWallet.cancel_offers_request
    rw [pyLower_idem]
  · unfold ChiaRPCV1.cancel_offers_request
    rw [pyLower_idem]

theorem lookup_append_or {α β : Type} [BEq α] (k : α) (l1 l2 : List (α × β)) :
    List.lookup k (l1 ++ l2) = (List.lookup k l1).or (List.lookup k l2) := by
  induction l1 with
  | nil => simp [List.lookup]
  | cons p l1 ih =>
    obtain ⟨a, b⟩ := p
    cases hk : k == a <;> simp [List.lookup, hk, ih]

theorem lookup_optField_self {β : Type} (key : String) (enc : β → Json)
    (o : Option β) : List.lookup key (optField key enc o) = o.map enc := by
  cases o <;> simp [optField, List.lookup]

theorem lookup_optField_ne {β : Type} {k key : String} (h : (k == key) = false)
    (enc : β → Json) (o : Option β) :
    List.lookup k (optField key enc o) = none := by
  cases o <;> simp [optField, List.lookup, h]

/-- C1 counterexample: `CatWallet.select_coins` does not drop unsupplied
optional arguments; called with all three optionals unset, the payload still
carries the key `excluded_coins`, bound to JSON `null`. -/
theorem select_coins_sends_null_for_unset :
    List.lookup "excluded_coins"
      (CatWallet.select_coins_request 1 1000 0 none none none).params.kvs =
        some Json.null ∧
    List.lookup "max_coin_amount"
      (CatWallet.select_coins_request 1 1000 0 none none none).params.kvs =
        some Json.null :=
  ⟨rfl, rfl⟩

/-- C1 (amended): `Wallet.send_transaction` always carries its required keys
and carries each optional key exactly when the argument was supplied, with
`None` arguments dropped; `CatWallet.select_coins` instead always carries
all six documented keys, optional arguments left unset being sent as JSON
`null`. -/
theorem payload_key_presence (wallet_id amount : Int) (address : String)
    (fee : Option Int) (memos : Option (List String))
    (min_coin_amount max_coin_amount : Option Int)
    (exclude_coin_amounts : Option (List Int))
    (exclude_coin_ids : Option (List String)) (reuse_puzhash : Bool)
    (w2 a2 m2 : Int) (ec : Option (List Json)) (mca : Option Int)
    (eca : Option (List Int)) :
    (List.lookup "wallet_id"
      (Wallet.send_transaction_request wallet_id amount address fee memos
        min_coin_amount max_coin_amount exclude_coin_amounts exclude_coin_ids
        reuse_puzhash).params.kvs = some (Json.num wallet_id)) ∧
    (List.lookup "amount"
      (Wallet.send_transaction_request wallet_id amount address fee memos
        min_coin_amount max_coin_amount exclude_coin_amounts exclude_coin_ids
        reuse_puzhash).params.kvs = some (Json.num amount)) ∧
    (List.lookup "address"
      (Wallet.send_transaction_request wallet_id amount address fee memos
        min_coin_amount max_coin_amount exclude_coin_amounts exclude_coin_ids
        reuse_puzhash).params.kvs = some (Json.str address)) ∧
    (List.lookup "reuse_puzhash"
      (Wallet.send_transaction_request wallet_id amount address fee memos
        min_coin_amount max_coin_amount exclude_coin_amounts exclude_coin_ids
        reuse_puzhash).params.kvs = some (Json.bool reuse_puzhash)) ∧
    (List.lookup "fee"
      (Wallet.send_transaction_request wallet_id amount address fee memos
        min_coin_amount max_coin_amount exclude_coin_amounts exclude_coin_ids
        reuse_puzhash).params.kvs = fee.map Json.num) ∧
    (List.lookup "memos"
      (Wallet.send_transaction_request wallet_id amount address fee memos
        min_coin_amount max_coin_amount exclude_coin_amounts exclude_coin_ids
        reuse_puzhash).params.kvs =
        memos.map fun v => Json.arr (v.map Json.str)) ∧
    (List.lookup "min_coin_amount"
      (Wallet.send_transaction_request wallet_id amount address fee memos
        min_coin_amount max_coin_amount exclude_coin_amounts exclude_coin_ids
        reuse_puzhash).params.kvs = min_coin_amount.map Json.num) ∧
    (List.lookup "max_coin_amount"
      (Wallet.send_transaction_request wallet_id amount address fee memos
        min_coin_amount max_coin_amount exclude_coin_amounts exclude_coin_ids
        reuse_puzhash).params.kvs = max_coin_amount.map Json.num) ∧
    (List.lookup "exclude_coin_amounts"
      (Wallet.send_transaction_request wallet_id amount address fee memos
        min_coin_amount max_coin_amount exclude_coin_amounts exclude_coin_ids
        reuse_puzhash).params.kvs =
        exclude_coin_amounts.map fun v => Json.arr (v.map Json.num)) ∧
    (List.lookup "exclude_coin_ids"
      (Wallet.send_transaction_request wallet_id amount address fee memos
        min_coin_amount max_coin_amount exclude_coin_amounts exclude_coin_ids
        reuse_puzhash).params.kvs =
        exclude_coin_ids.map fun v => Json.arr (v.map Json.str)) ∧
    ((CatWallet.select_coins_request w2 a2 m2 ec mca eca).params.kvs.map
        Prod.fst =
      ["wallet_id", "amount", "min_coin_amount", "excluded_coins",
       "max_coin_amount", "exclude_coin_amounts"]) ∧
    (List.lookup "excluded_coins"
      (CatWallet.select_coins_request w2 a2 m2 ec mca eca).params.kvs =
        some (optJson (ec.map Json.arr))) ∧
    (List.lookup "max_coin_amount"
      (CatWallet.select_coins_request w2 a2 m2 ec mca eca).params.kvs =
        some (optJson (mca.map Json.num))) ∧
    (List.lookup "exclude_coin_amounts"
      (CatWallet.select_coins_request w2 a2 m2 ec mca eca).params.kvs =
        some (optJson (eca.map fun l => Json.arr (l.map Json.num)))) := by
  refine ⟨?_, ?_, ?_, ?_, ?_, ?_, ?_, ?_, ?_, ?_, ?_, ?_, ?_, ?_⟩ <;>
    simp [Wallet.send_transaction_request, CatWallet.select_coins_request,
      Json.kvs, lookup_append_or, lookup_optField_self, lookup_optField_ne,
      List.lookup]

/-- C4: the two revisions follow distinct error policies.  In the earlier
revision (ChiaRPC.py) a transport exception propagates out of the method;
in the later revision (wallet.py) every `SharedMethods`/`CatWallet` method
body — modelled uniformly by `guardedCall` — catches it and returns
`("error": str(e))` instead. -/
theorem two_revision_error_policies (req : RpcRequest) (t : Transport)
    (e node_id : String) (ht : t req = Except.error e) :
    rawCall t req = Except.error e ∧
    guardedCall t req = Json.obj [("error", Json.str e)] ∧
    ChiaRPCV1.close_connection node_id (fun _ => Except.error e) =
      Except.error e ∧
    SharedMethods.close_connection node_id (fun _ => Except.error e) =
      Json.obj [("error", Json.str e)] := by
  refine ⟨?_, ?_, rfl, rfl⟩
  · unfold rawCall submitResult
    rw [ht]
  · unfold guardedCall rawCall submitResult
    rw [ht]

theorem two_revision_error_policies_witness :
    rawCall (fun _ => Except.error "Connection refused")
        (SharedMethods.close_connection_request "nodeid") =
      Except.error "Connection refused" ∧
    guardedCall (fun _ => Except.error "Connection refused")
        (SharedMethods.close_connection_request "nodeid") =
      Json.obj [("error", Json.str "Connection refused")] ∧
    ChiaRPCV1.close_connection "nodeid"
        (fun _ => Except.error "Connection refused") =
      Except.error "Connection refused" ∧
    SharedMethods.close_connection "nodeid"
        (fun _ => Except.error "Connection refused") =
      Json.obj [("error", Json.str "Connection refused")] :=
  two_revision_error_policies
    (SharedMethods.close_connection_request "nodeid")
    (fun _ => Except.error "Connection refused")
    "Connection refused" "nodeid" rfl

/-- C3 counterexample: `DidWallet.did_get_did` (wallet.py 725-742) has no
`try`/`except`; a transport failure escapes the method as an exception
instead of surfacing as `("error": message)`. -/
theorem did_get_did_error_escapes :
    DidWallet.did_get_did 1 (fun _ => Except.error "Connection refused") =
      Except.error "Connection refused" :=
  rfl

/-- C3 (amended): a transport failure or a malformed response body surfaces
as `("error": message)` in the `SharedMethods` and `CatWallet` methods of
the later revision, but escapes as an exception from the methods of the
remaining classes, such as `DidWallet.did_get_did` and
`Wallet.get_wallet_balance`. -/
theorem transport_error_surface (t : Transport) (e body node_id : String)
    (wallet_id : Int) (secure : Bool)
    (ht : ∀ req, t req = Except.error e) (hbad : loads body = none) :
    SharedMethods.close_connection node_id t =
      Json.obj [("error", Json.str e)] ∧
    SharedMethods.check_healthz t = Json.obj [("error", Json.str e)] ∧
    CatWallet.cancel_offers secure 0 5 false "xch" t =
      Json.obj [("error", Json.str e)] ∧
    CatWallet.select_coins wallet_id 1 0 none none none t =
      Json.obj [("error", Json.str e)] ∧
    DidWallet.did_get_did wallet_id t = Except.error e ∧
    Wallet.get_wallet_balance wallet_id t = Except.error e ∧
    SharedMethods.close_connection node_id (fun _ => Except.ok body) =
      Json.obj [("error", Json.str decodeErrorMsg)] ∧
    DidWallet.did_get_did wallet_id (fun _ => Except.ok body) =
      Except.error decodeErrorMsg := by
  have g : ∀ req, guardedCall t req = Json.obj [("error", Json.str e)] := by
    intro req
    unfold guardedCall rawCall submitResult
    rw [ht req]
  have r : ∀ req, rawCall t req = Except.error e := by
    intro req
    unfold rawCall submitResult
    rw [ht req]
  have gbad : ∀ req, guardedCall (fun _ => Except.ok body) req =
      Json.obj [("error", Json.str decodeErrorMsg)] := by
    intro req
    unfold guardedCall rawCall submitResult
    simp only [hbad]
  have rbad : ∀ req, rawCall (fun _ => Except.ok body) req =
      Except.error decodeErrorMsg := by
    intro req
    unfold rawCall submitResult
    simp only [hbad]
  exact ⟨g _, g _, g _, g _, r _, r _, gbad _, rbad _⟩

theorem transport_error_surface_witness :
    SharedMethods.close_connection "nodeid" (fun _ => Except.error "timeout") =
      Json.obj [("error", Json.str "timeout")] ∧
    SharedMethods.check_healthz (fun _ => Except.error "timeout") =
      Json.obj [("error", Json.str "timeout")] ∧
    CatWallet.cancel_offers true 0 5 false "xch"
        (fun _ => Except.error "timeout") =
      Json.obj [("error", Json.str "timeout")] ∧
    CatWallet.select_coins 1 1 0 none none none
        (fun _ => Except.error "timeout") =
      Json.obj [("error", Json.str "timeout")] ∧
    DidWallet.did_get_did 1 (fun _ => Except.error "timeout") =
      Except.error "timeout" ∧
    Wallet.get_wallet_balance 1 (fun _ => Except.error "timeout") =
      Except.error "timeout" ∧
    SharedMethods.close_connection "nodeid" (fun _ => Except.ok "<html>") =
      Json.obj [("error", Json.str decodeErrorMsg)] ∧
    DidWallet.did_get_did 1 (fun _ => Except.ok "<html>") =
      Except.error decodeErrorMsg :=
  transport_error_surface (fun _ => Except.error "timeout") "timeout"
    "<html>" "nodeid" 1 true (fun _ => rfl) rfl

theorem sliceBatches_cons {α : Type} (l : List α) (h : l ≠ []) :
    CatsOutTheBag.sliceBatches l =
      l.take 25 :: CatsOutTheBag.sliceBatches (l.drop 25) := by
  unfold CatsOutTheBag.sliceBatches
  have hl : 1 ≤ l.length := List.length_pos.mpr h
  have hn : (l.length + 24) / 25 = ((l.drop 25).length + 24) / 25 + 1 := by
    rw [List.length_drop]
    omega
  rw [hn, List.range_succ_eq_map]
  simp only [List.map_cons, List.map_map]
  congr 1
  refine List.map_congr_left fun i _ => ?_
  simp only [Function.comp_apply]
  rw [List.drop_drop, show Nat.succ i * 25 = i * 25 + 25 from by omega,
    Nat.add_comm 25 (i * 25)]

theorem sliceBatches_join {α : Type} (l : List α) :
    (CatsOutTheBag.sliceBatches l).flatten = l := by
  generalize hn : l.length = n
  induction n using Nat.strong_induction_on generalizing l with
  | _ n ih =>
    by_cases h : l = []
    · subst h
      simp [CatsOutTheBag.sliceBatches]
    · have hl : 1 ≤ l.length := List.length_pos.mpr h
      rw [sliceBatches_cons l h, List.flatten_cons,
        ih ((l.drop 25).length) (by rw [List.length_drop]; omega) (l.drop 25) rfl,
        List.take_append_drop]

theorem sliceBatches_mem {α : Type} (l : List α) (b : List α)
    (hb : b ∈ CatsOutTheBag.sliceBatches l) : b.length ≤ 25 ∧ b ≠ [] := by
  unfold CatsOutTheBag.sliceBatches at hb
  simp only [List.mem_map, List.mem_range] at hb
  obtain ⟨i, hi, rfl⟩ := hb
  refine ⟨by simp [List.length_take], ?_⟩
  have hlt : i * 25 < l.length := by omega
  intro hemp
  have hlen := congrArg List.length hemp
  simp only [List.length_take, List.length_drop, List.length_nil] at hlen
  omega

theorem filterMap_batches {α β : Type} (f : List α → β) (bs : List (List α))
    (h : ∀ b ∈ bs, b ≠ []) :
    (bs.filterMap fun b => if b.isEmpty then none else some (f b)) =
      bs.map f := by
  induction bs with
  | nil => rfl
  | cons b bs ih =>
    have hb : b.isEmpty = false := by
      have := h b (List.mem_cons_self b bs)
      cases b
      · exact absurd rfl this
      · rfl
    rw [List.filterMap_cons, List.map_cons, hb]
    simp only [Bool.false_eq_true, if_false]
    rw [ih fun x hx => h x (List.mem_cons_of_mem b hx)]

/-- C7: `send_transactions` splits its addition list, in order, into
`(n + 24) / 25` consecutive batches of at most 25 additions whose
concatenation is the whole list, and issues one `send_transaction_multi`
request with fee 50000 per (necessarily non-empty) batch, in order. -/
theorem send_transactions_batching (wallet_id : Int) (l : List Json)
    (coins : Option (List Json)) (ca pa : Option String) :
    (CatsOutTheBag.sliceBatches l).length = (l.length + 24) / 25 ∧
    (∀ b ∈ CatsOutTheBag.sliceBatches l, b.length ≤ 25 ∧ b ≠ []) ∧
    (CatsOutTheBag.sliceBatches l).flatten = l ∧
    CatsOutTheBag.send_transactions_requests wallet_id l coins ca pa =
      (CatsOutTheBag.sliceBatches l).map fun b =>
        Wallet.send_transaction_multi_request wallet_id b 50000 coins ca pa := by
  refine ⟨by simp [CatsOutTheBag.sliceBatches], sliceBatches_mem l,
    sliceBatches_join l, ?_⟩
  unfold CatsOutTheBag.send_transactions_requests
  exact filterMap_batches _ _ fun b hb => (sliceBatches_mem l b hb).2

namespace CatsOutTheBag

theorem addNft_entryFor (addr eid : String) (v : Int)
    (acc : List OwnerEntry) (a : String) :
    entryFor a (addNft addr eid v acc) =
      if addr = a then some (extendEntry a (entryFor a acc) eid v)
      else entryFor a acc := by
  induction acc with
  | nil =>
    by_cases h : addr = a
    · subst h
      simp [addNft, entryFor, extendEntry]
    · simp [addNft, entryFor, h]
  | cons e es ih =>
    by_cases he : e.owner_address_decoded_id = addr
    · by_cases h : addr = a
      · subst h
        simp [addNft, entryFor, he, extendEntry]
      · have hea : ¬(e.owner_address_decoded_id = a) := by
          rw [he]; exact h
        simp [addNft, entryFor, he, hea, h]
    · by_cases h : addr = a
      · subst h
        have hea : ¬(e.owner_address_decoded_id = addr) := he
        simp [addNft, entryFor, he, hea, ih]
      · have hna : ¬(a = addr) := fun hh => h hh.symm
        by_cases hea : e.owner_address_decoded_id = a
        · simp [addNft, entryFor, he, hea, h, hna]
        · simp [addNft, entryFor, he, hea, h, hna, ih]

theorem addNft_owners (addr eid : String) (v : Int) (acc : List OwnerEntry) :
    (addNft addr eid v acc).map OwnerEntry.owner_address_decoded_id =
      if addr ∈ acc.map OwnerEntry.owner_address_decoded_id
      then acc.map OwnerEntry.owner_address_decoded_id
      else acc.map OwnerEntry.owner_address_decoded_id ++ [addr] := by
  induction acc with
  | nil => simp [addNft]
  | cons e es ih =>
    by_cases he : e.owner_address_decoded_id = addr
    · simp [addNft, he]
    · have hne : ¬(addr = e.owner_address_decoded_id) := fun hh => he hh.symm
      by_cases hm : addr ∈ es.map OwnerEntry.owner_address_decoded_id
      · simp [addNft, he, hm, ih, hne]
      · simp [addNft, he, hm, ih, hne]

theorem addNft_nodup (addr eid : String) (v : Int) (acc : List OwnerEntry)
    (h : (acc.map OwnerEntry.owner_address_decoded_id).Nodup) :
    ((addNft addr eid v acc).map OwnerEntry.owner_address_decoded_id).Nodup := by
  rw [addNft_owners]
  by_cases hm : addr ∈ acc.map OwnerEntry.owner_address_decoded_id
  · simpa [hm] using h
  · simp only [hm, if_false]
    rw [List.nodup_append]
    refine ⟨h, List.nodup_singleton addr, ?_⟩
    intro x hx hx1
    simp only [List.mem_singleton] at hx1
    subst hx1
    exact hm hx

theorem step_nodup (decode : String → String)
    (ps : List (NftItem × Int)) (acc : List OwnerEntry)
    (h : (acc.map OwnerEntry.owner_address_decoded_id).Nodup) :
    ((ps.foldl (fun a p =>
        addNft (decode p.1.owner_address_encoded_id) p.1.encoded_id p.2 a)
      acc).map OwnerEntry.owner_address_decoded_id).Nodup := by
  induction ps generalizing acc with
  | nil => exact h
  | cons p ps ih =>
    exact ih _ (addNft_nodup _ _ _ _ h)

theorem foldl_extend_some (a : String) (qs : List (String × Int))
    (e : OwnerEntry) :
    qs.foldl (fun e? q => some (extendEntry a e? q.1 q.2)) (some e) =
      some ⟨e.owner_address_decoded_id, e.encoded_ids ++ qs.map Prod.fst,
        e.nft_values ++ qs.map Prod.snd,
        e.nft_value + (qs.map Prod.snd).sum⟩ := by
  induction qs generalizing e with
  | nil => simp
  | cons q qs ih =>
    rw [List.foldl_cons, ih]
    simp [extendEntry, add_assoc]

theorem foldl_extend_none (a : String) (qs : List (String × Int)) :
    qs.foldl (fun e? q => some (extendEntry a e? q.1 q.2)) none =
      expectedEntry a qs := by
  cases qs with
  | nil => rfl
  | cons q qs =>
    rw [List.foldl_cons]
    show qs.foldl _ (some (⟨a, [q.1], [q.2], q.2⟩ : OwnerEntry)) = _
    rw [foldl_extend_some]
    simp [expectedEntry]

theorem foldl_entryFor (decode : String → String) (a : String)
    (ps : List (NftItem × Int)) (acc : List OwnerEntry) :
    entryFor a (ps.foldl (fun b p =>
        addNft (decode p.1.owner_address_encoded_id) p.1.encoded_id p.2 b)
      acc) =
      (ownedPairs decode a ps).foldl
        (fun e? q => some (extendEntry a e? q.1 q.2)) (entryFor a acc) := by
  induction ps generalizing acc with
  | nil => rfl
  | cons p ps ih =>
    rw [List.foldl_cons, ih]
    by_cases hp : decode p.1.owner_address_encoded_id = a
    · rw [show ownedPairs decode a (p :: ps) =
          (p.1.encoded_id, p.2) :: ownedPairs decode a ps from by
        simp [ownedPairs, hp]]
      rw [List.foldl_cons, addNft_entryFor, if_pos hp]
    · rw [show ownedPairs decode a (p :: ps) = ownedPairs decode a ps from by
        simp [ownedPairs, hp]]
      rw [addNft_entryFor, if_neg hp]

theorem entryFor_of_mem (out : List OwnerEntry) (e : OwnerEntry)
    (hn : (out.map OwnerEntry.owner_address_decoded_id).Nodup)
    (he : e ∈ out) : entryFor e.owner_address_decoded_id out = some e := by
  induction out with
  | nil => cases he
  | cons f fs ih =>
    simp only [List.map_cons, List.nodup_cons] at hn
    rcases List.mem_cons.mp he with rfl | hmem
    · simp [entryFor]
    · have hne : ¬(f.owner_address_decoded_id = e.owner_address_decoded_id) := by
        intro hh
        exact hn.1 (hh ▸ List.mem_map_of_mem OwnerEntry.owner_address_decoded_id hmem)
      simp [entryFor, hne, ih hn.2 hmem]

/-- C8: `nft_ownership_data` aggregates by decoded owner address: the
returned entries have pairwise-distinct addresses, and the entry of address
`a` collects, in fetch order, exactly the encoded id and the value of every
NFT across all collections whose decoded owner is `a` — so its
`encoded_ids` and `nft_values` have equal length and its `nft_value` is the
sum of its `nft_values`. -/
theorem nft_ownership_data_spec (decode : String → String)
    (collections : List (List (NftItem × Int))) (a : String) :
    ((nft_ownership_data decode collections).map
      OwnerEntry.owner_address_decoded_id).Nodup ∧
    entryFor a (nft_ownership_data decode collections) =
      expectedEntry a (ownedPairs decode a collections.flatten) ∧
    (∀ e ∈ nft_ownership_data decode collections,
      e.encoded_ids.length = e.nft_values.length ∧
      e.nft_value = e.nft_values.sum) := by
  have hflat : nft_ownership_data decode collections =
      collections.flatten.foldl (fun b p =>
        addNft (decode p.1.owner_address_encoded_id) p.1.encoded_id p.2 b)
      [] := by
    unfold nft_ownership_data
    rw [List.foldl_flatten]
  have hnodup : ((nft_ownership_data decode collections).map
      OwnerEntry.owner_address_decoded_id).Nodup := by
    rw [hflat]
    exact step_nodup decode collections.flatten [] (by simp)
  have hentry : ∀ x, entryFor x (nft_ownership_data decode collections) =
      expectedEntry x (ownedPairs decode x collections.flatten) := by
    intro x
    rw [hflat, foldl_entryFor]
    exact foldl_extend_none x _
  refine ⟨hnodup, hentry a, ?_⟩
  intro e he
  have h1 : entryFor e.owner_address_decoded_id
      (nft_ownership_data decode collections) = some e :=
    entryFor_of_mem _ e hnodup he
  rw [hentry e.owner_address_decoded_id] at h1
  rcases hq : ownedPairs decode e.owner_address_decoded_id
      collections.flatten with _ | ⟨q, qs⟩
  · rw [hq] at h1
    cases h1
  · rw [hq] at h1
    simp only [expectedEntry, Option.some.injEq] at h1
    rw [← h1]
    simp

end CatsOutTheBag

/-! ## Round trip of the serializer through the parser -/

theorem skipWs_append (pre cs : List Char) (h : wsOnly pre = true) :
    skipWs (pre ++ cs) = skipWs cs := by
  induction pre with
  | nil => rfl
  | cons c p ih =>
    simp only [wsOnly, List.all_cons, Bool.and_eq_true] at h
    simp only [List.cons_append, skipWs, h.1, if_true]
    exact ih (by simp [wsOnly, h.2])

theorem skipWs_cons_false (c : Char) (cs : List Char)
    (h : isWsChar c = false) : skipWs (c :: cs) = c :: cs := by
  simp [skipWs, h]

theorem wsOnly_indentChars (lvl : Nat) : wsOnly (indentChars lvl) = true := by
  simp only [wsOnly, indentChars, List.all_eq_true, List.mem_replicate]
  intro c hc
  rw [hc.2]
  rfl

theorem parseVal_ws (fuel : Nat) (pre cs : List Char)
    (h : wsOnly pre = true) :
    parseVal fuel (pre ++ cs) = parseVal fuel cs := by
  cases fuel with
  | zero => rfl
  | succ fuel => simp only [parseVal, skipWs_append pre cs h]

theorem toNat_digitChar {d : Nat} (h : d < 10) :
    (digitChar d).toNat = 48 + d :=
  char_toNat_ofNat_of_lt (by omega)

theorem isDigitChar_digitChar {d : Nat} (h : d < 10) :
    isDigitChar (digitChar d) = true := by
  simp only [isDigitChar, toNat_digitChar h, Bool.and_eq_true, decide_eq_true_eq]
  omega

theorem digitVal_digitChar {d : Nat} (h : d < 10) :
    digitVal (digitChar d) = d := by
  simp only [digitVal, toNat_digitChar h]
  omega

theorem natDigitsRev_lt (fuel n : Nat) :
    ∀ d ∈ natDigitsRev fuel n, d < 10 := by
  induction fuel generalizing n with
  | zero => intro d hd; cases hd
  | succ fuel ih =>
    intro d hd
    unfold natDigitsRev at hd
    by_cases h : n = 0
    · simp [h] at hd
    · rw [if_neg h] at hd
      rcases List.mem_cons.mp hd with rfl | hmem
      · omega
      · exact ih (n / 10) d hmem

theorem digitsValRev_natDigitsRev (fuel n : Nat) (h : n ≤ fuel) :
    digitsValRev (natDigitsRev fuel n) = n := by
  induction fuel generalizing n with
  | zero =>
    have : n = 0 := by omega
    subst this
    rfl
  | succ fuel ih =>
    unfold natDigitsRev
    by_cases h0 : n = 0
    · simp [h0, digitsValRev]
    · rw [if_neg h0]
      simp only [digitsValRev]
      rw [ih (n / 10) (by omega)]
      omega

theorem parseDigitsAux_spec (ds : List Nat) (rest : List Char) (acc : Nat)
    (hds : ∀ d ∈ ds, d < 10) (hrest : headNotDigitB rest = true) :
    parseDigitsAux (ds.map digitChar ++ rest) acc =
      (ds.foldl (fun a d => a * 10 + d) acc, rest) := by
  induction ds generalizing acc with
  | nil =>
    cases rest with
    | nil => rfl
    | cons c cs =>
      simp only [headNotDigitB, Bool.not_eq_true'] at hrest
      simp [parseDigitsAux, hrest]
  | cons d ds ih =>
    have hd : d < 10 := hds d (List.mem_cons_self d ds)
    simp only [List.map_cons, List.cons_append, parseDigitsAux,
      isDigitChar_digitChar hd, if_true, digitVal_digitChar hd, List.foldl_cons]
    exact ih _ fun x hx => hds x (List.mem_cons_of_mem d hx)

theorem foldl_digits_reverse (ds : List Nat) (acc : Nat) :
    ds.reverse.foldl (fun a d => a * 10 + d) acc =
      acc * 10 ^ ds.length + digitsValRev ds := by
  induction ds generalizing acc with
  | nil => simp [digitsValRev]
  | cons d ds ih =>
    simp only [List.reverse_cons, List.foldl_append, List.foldl_cons,
      List.foldl_nil, ih, List.length_cons, digitsValRev]
    ring

theorem parseNat_printNat (n : Nat) (rest : List Char)
    (hrest : headNotDigitB rest = true) :
    parseNat (printNat n ++ rest) = some (n, rest) := by
  by_cases h0 : n = 0
  · subst h0
    simp only [printNat, if_pos rfl, List.cons_append, List.nil_append]
    show parseNat ('0' :: rest) = some (0, rest)
    have : parseDigitsAux rest 0 = (0, rest) := by
      cases rest with
      | nil => rfl
      | cons c cs =>
        simp only [headNotDigitB, Bool.not_eq_true'] at hrest
        simp [parseDigitsAux, hrest]
    simp [parseNat, isDigitChar, digitVal, this]
  · rcases hsplit : natDigits n with _ | ⟨d0, ds⟩
    · exfalso
      have := digitsValRev_natDigitsRev n n (Nat.le_refl n)
      rw [show natDigitsRev n n = [] from by
        have := congrArg List.reverse hsplit
        simpa [natDigits] using this] at this
      exact h0 (by simpa [digitsValRev] using this.symm)
    · have hmem : ∀ d ∈ d0 :: ds, d < 10 := by
        rw [← hsplit]
        intro d hd
        have hd2 : d ∈ natDigitsRev n n := by
          unfold natDigits at hd
          exact List.mem_reverse.mp hd
        exact natDigitsRev_lt n n d hd2
      have hd0 : d0 < 10 := hmem d0 (List.mem_cons_self d0 ds)
      simp only [printNat, if_neg h0, hsplit, List.map_cons, List.cons_append,
        parseNat, isDigitChar_digitChar hd0, if_true, digitVal_digitChar hd0]
      rw [parseDigitsAux_spec ds rest d0
        (fun x hx => hmem x (List.mem_cons_of_mem d0 hx)) hrest]
      have hfold : (d0 :: ds).foldl (fun a d => a * 10 + d) 0 = n := by
        rw [← hsplit]
        have hrev : natDigits n = (natDigitsRev n n).reverse := rfl
        rw [hrev, foldl_digits_reverse]
        simp [digitsValRev_natDigitsRev n n (Nat.le_refl n)]
      simp only [List.foldl_cons] at hfold
      rw [show 0 * 10 + d0 = d0 from by omega] at hfold
      rw [hfold]

theorem parseStringBody_plain (l : List Char) (rest : List Char)
    (h : l.all plainChar = true) :
    parseStringBody (l ++ '"' :: rest) = some (l, rest) := by
  induction l with
  | nil =>
    show parseStringBody ('"' :: rest) = some ([], rest)
    rfl
  | cons c cs ih =>
    simp only [List.all_cons, Bool.and_eq_true] at h
    have hc := h.1
    simp only [plainChar, Bool.and_eq_true, decide_eq_true_eq] at hc
    show parseStringBody (c :: (cs ++ '"' :: rest)) = some (c :: cs, rest)
    unfold parseStringBody
    rw [if_neg (show ¬c.toNat = 34 from by omega),
      if_neg (show ¬c.toNat = 92 from by omega),
      if_neg (show ¬c.toNat < 32 from by omega), ih h.2]
    rfl

theorem natDigits_mem_lt (n : Nat) : ∀ d ∈ natDigits n, d < 10 := by
  intro d hd
  refine natDigitsRev_lt n n d (List.mem_reverse.mp ?_)
  simpa [natDigits] using hd

theorem natDigits_ne_nil (n : Nat) (h : n ≠ 0) : natDigits n ≠ [] := by
  intro hnil
  have hv := digitsValRev_natDigitsRev n n (Nat.le_refl n)
  rw [show natDigitsRev n n = [] from by
    have hr := congrArg List.reverse hnil
    simpa [natDigits] using hr] at hv
  exact h (by simpa [digitsValRev] using hv.symm)

theorem printNat_head (n : Nat) :
    ∃ c t, printNat n = c :: t ∧ 48 ≤ c.toNat ∧ c.toNat ≤ 57 := by
  by_cases h : n = 0
  · subst h
    exact ⟨'0', [], rfl, by decide, by decide⟩
  · rcases hs : natDigits n with _ | ⟨d0, ds⟩
    · exact absurd hs (natDigits_ne_nil n h)
    · have hd0 : d0 < 10 := natDigits_mem_lt n d0 (hs ▸ List.mem_cons_self d0 ds)
      refine ⟨digitChar d0, ds.map digitChar, ?_, ?_, ?_⟩
      · simp [printNat, h, hs]
      · rw [toNat_digitChar hd0]; omega
      · rw [toNat_digitChar hd0]; omega

theorem emitVal_head (lvl : Nat) (w : Json) :
    ∃ c t, emitVal lvl w = c :: t ∧
      (c.toNat = 110 ∨ c.toNat = 116 ∨ c.toNat = 102 ∨ c.toNat = 34 ∨
       c.toNat = 91 ∨ c.toNat = 123 ∨ c.toNat = 45 ∨
       (48 ≤ c.toNat ∧ c.toNat ≤ 57)) := by
  cases w with
  | null => exact ⟨'n', ['u', 'l', 'l'], rfl, by decide⟩
  | bool b =>
    cases b with
    | true => exact ⟨'t', ['r', 'u', 'e'], rfl, by decide⟩
    | false => exact ⟨'f', ['a', 'l', 's', 'e'], rfl, by decide⟩
  | num n =>
    cases n with
    | ofNat m =>
      obtain ⟨c, t, hct, h1, h2⟩ := printNat_head m
      exact ⟨c, t, by simpa [emitVal, printInt] using hct,
        Or.inr (Or.inr (Or.inr (Or.inr (Or.inr (Or.inr (Or.inr ⟨h1, h2⟩))))))⟩
    | negSucc m =>
      exact ⟨'-', printNat (m + 1), rfl, by decide⟩
  | str s => exact ⟨'"', s.data ++ ['"'], rfl, by decide⟩
  | arr xs =>
    cases xs with
    | nil => exact ⟨'[', [']'], rfl, by decide⟩
    | cons x xs =>
      exact ⟨'[', _, rfl, by decide⟩
  | obj kvs =>
    cases kvs with
    | nil => exact ⟨'\x7b', ['\x7d'], rfl, by decide⟩
    | cons kv kvs =>
      exact ⟨'\x7b', _, rfl, by decide⟩

theorem head_class_facts {c : Char}
    (h : c.toNat = 110 ∨ c.toNat = 116 ∨ c.toNat = 102 ∨ c.toNat = 34 ∨
      c.toNat = 91 ∨ c.toNat = 123 ∨ c.toNat = 45 ∨
      (48 ≤ c.toNat ∧ c.toNat ≤ 57)) :
    isWsChar c = false ∧ c.toNat ≠ 93 ∧ c.toNat ≠ 44 ∧ c.toNat ≠ 125 := by
  refine ⟨?_, by omega, by omega, by omega⟩
  simp only [isWsChar, Bool.or_eq_false_iff, decide_eq_false_iff_not]
  omega

theorem headNotDigit_emitItems (lvl : Nat) (xs : List Json) (z : List Char) :
    headNotDigitB (emitItems lvl xs ++ '\n' :: z) = true := by
  cases xs <;> rfl

theorem headNotDigit_emitMembers (lvl : Nat) (kvs : List (String × Json))
    (z : List Char) :
    headNotDigitB (emitMembers lvl kvs ++ '\n' :: z) = true := by
  cases kvs <;> rfl

theorem insertSorted_perm {α : Type} (le : α → α → Bool) (x : α)
    (l : List α) : (insertSorted le x l).Perm (x :: l) := by
  induction l with
  | nil => exact List.Perm.refl _
  | cons y ys ih =>
    unfold insertSorted
    split
    · exact List.Perm.refl _
    · exact (ih.cons y).trans (List.Perm.swap x y ys)

theorem stableSort_perm {α : Type} (le : α → α → Bool) (l : List α) :
    (stableSort le l).Perm l := by
  induction l with
  | nil => exact List.Perm.refl _
  | cons x xs ih => exact (insertSorted_perm le x _).trans (ih.cons x)

mutual
theorem jsonSim_sortKeys : ∀ w : Json, jsonSim (sortKeysJson w) w
  | .null => jsonSim.null
  | .bool b => jsonSim.bool b
  | .num n => jsonSim.num n
  | .str s => jsonSim.str s
  | .arr xs => jsonSim.arr (jsonSimList_sortKeys xs)
  | .obj kvs =>
    jsonSim.obj (stableSort_perm keyLe (sortKeysKvs kvs)) (jsonSimKvs_sortKeys kvs)
theorem jsonSimList_sortKeys : ∀ xs : List Json, jsonSimList (sortKeysList xs) xs
  | [] => jsonSimList.nil
  | x :: xs =>
    jsonSimList.cons (jsonSim_sortKeys x) (jsonSimList_sortKeys xs)
theorem jsonSimKvs_sortKeys :
    ∀ kvs : List (String × Json), jsonSimKvs (sortKeysKvs kvs) kvs
  | [] => jsonSimKvs.nil
  | (k, v) :: kvs =>
    jsonSimKvs.cons (jsonSim_sortKeys v) (jsonSimKvs_sortKeys kvs)
end

theorem wfList_iff (xs : List Json) :
    wfList xs = true ↔ ∀ x ∈ xs, wfJson x = true := by
  induction xs with
  | nil => simp [wfList]
  | cons x xs ih =>
    simp only [wfList, Bool.and_eq_true, ih, List.forall_mem_cons]

theorem wfKvs_iff (kvs : List (String × Json)) :
    wfKvs kvs = true ↔
      ∀ kv ∈ kvs, plainStr kv.1 = true ∧ wfJson kv.2 = true := by
  induction kvs with
  | nil => simp [wfKvs]
  | cons kv kvs ih =>
    obtain ⟨k, v⟩ := kv
    simp only [wfKvs, Bool.and_eq_true, ih, List.forall_mem_cons]

theorem keyMem_iff (k : String) (kvs : List (String × Json)) :
    keyMem k kvs = true ↔ k ∈ kvs.map Prod.fst := by
  induction kvs with
  | nil => simp [keyMem]
  | cons kv kvs ih =>
    obtain ⟨k2, v⟩ := kv
    by_cases h : k2 = k
    · subst h
      simp [keyMem]
    · simp only [keyMem, if_neg h, ih, List.map_cons, List.mem_cons]
      have : ¬(k = k2) := fun hh => h hh.symm
      tauto

theorem keysDistinct_iff (kvs : List (String × Json)) :
    keysDistinct kvs = true ↔ (kvs.map Prod.fst).Nodup := by
  induction kvs with
  | nil => simp [keysDistinct]
  | cons kv kvs ih =>
    obtain ⟨k, v⟩ := kv
    simp only [keysDistinct, Bool.and_eq_true, Bool.not_eq_true',
      List.map_cons, List.nodup_cons, ih]
    constructor
    · intro ⟨h1, h2⟩
      refine ⟨fun hm => ?_, h2⟩
      rw [← keyMem_iff k kvs] at hm
      rw [hm] at h1
      cases h1
    · intro ⟨h1, h2⟩
      refine ⟨?_, h2⟩
      rcases hk : keyMem k kvs with _ | _
      · rfl
      · exact absurd ((keyMem_iff k kvs).mp hk) h1

theorem map_fst_sortKeysKvs (kvs : List (String × Json)) :
    (sortKeysKvs kvs).map Prod.fst = kvs.map Prod.fst := by
  induction kvs with
  | nil => rfl
  | cons kv kvs ih =>
    obtain ⟨k, v⟩ := kv
    simp only [sortKeysKvs, List.map_cons, ih]

mutual
theorem wf_sortKeysJson : ∀ w : Json,
    wfJson w = true → wfJson (sortKeysJson w) = true
  | .null, h => h
  | .bool _, h => h
  | .num _, h => h
  | .str _, h => h
  | .arr xs, h => wf_sortKeysList xs h
  | .obj kvs, h => by
    have h2 : keysDistinct kvs = true ∧ wfKvs kvs = true := by
      simpa [wfJson, Bool.and_eq_true] using h
    show wfJson (Json.obj (stableSort keyLe (sortKeysKvs kvs))) = true
    simp only [wfJson, Bool.and_eq_true]
    constructor
    · rw [keysDistinct_iff]
      rw [((stableSort_perm keyLe (sortKeysKvs kvs)).map Prod.fst).nodup_iff]
      rw [map_fst_sortKeysKvs]
      exact (keysDistinct_iff kvs).mp h2.1
    · rw [wfKvs_iff]
      intro kv hkv
      have hkv2 : kv ∈ sortKeysKvs kvs :=
        (stableSort_perm keyLe (sortKeysKvs kvs)).mem_iff.mp hkv
      exact (wfKvs_iff (sortKeysKvs kvs)).mp (wf_sortKeysKvs kvs h2.2) kv hkv2
theorem wf_sortKeysList : ∀ xs : List Json,
    wfList xs = true → wfList (sortKeysList xs) = true
  | [], h => h
  | x :: xs, h => by
    have h2 : wfJson x = true ∧ wfList xs = true := by
      simpa [wfList, Bool.and_eq_true] using h
    show wfList (sortKeysJson x :: sortKeysList xs) = true
    simp only [wfList, Bool.and_eq_true]
    exact ⟨wf_sortKeysJson x h2.1, wf_sortKeysList xs h2.2⟩
theorem wf_sortKeysKvs : ∀ kvs : List (String × Json),
    wfKvs kvs = true → wfKvs (sortKeysKvs kvs) = true
  | [], h => h
  | (k, v) :: kvs, h => by
    have h2 : (plainStr k = true ∧ wfJson v = true) ∧ wfKvs kvs = true := by
      simpa [wfKvs, Bool.and_eq_true] using h
    show wfKvs ((k, sortKeysJson v) :: sortKeysKvs kvs) = true
    simp only [wfKvs, Bool.and_eq_true]
    exact ⟨⟨h2.1.1, wf_sortKeysJson v h2.1.2⟩, wf_sortKeysKvs kvs h2.2⟩
end

mutual
theorem jfuel_le_emitVal : ∀ (lvl : Nat) (w : Json),
    jfuel w ≤ (emitVal lvl w).length + 1
  | _, .null => by simp [jfuel, emitVal]
  | _, .bool b => by cases b <;> simp [jfuel, emitVal]
  | _, .num n => by simp [jfuel]
  | _, .str s => by simp [jfuel]
  | _, .arr [] => by simp [jfuel, jfuelL, emitVal]
  | lvl, .arr (x :: xs) => by
    have h1 := jfuel_le_emitVal (lvl + 1) x
    have h2 := jfuelL_le_emitItems (lvl + 1) xs
    simp only [jfuel, jfuelL, emitVal, List.length_cons, List.length_append]
    omega
  | _, .obj [] => by simp [jfuel, jfuelK, emitVal]
  | lvl, .obj (⟨k, v⟩ :: kvs) => by
    have h1 := jfuel_le_emitVal (lvl + 1) v
    have h2 := jfuelK_le_emitMembers (lvl + 1) kvs
    simp only [jfuel, jfuelK, emitVal, emitMember, List.length_cons,
      List.length_append]
    omega
theorem jfuelL_le_emitItems : ∀ (lvl : Nat) (xs : List Json),
    jfuelL xs ≤ (emitItems lvl xs).length
  | _, [] => by simp [jfuelL, emitItems]
  | lvl, x :: xs => by
    have h1 := jfuel_le_emitVal lvl x
    have h2 := jfuelL_le_emitItems lvl xs
    simp only [jfuelL, emitItems, List.length_cons, List.length_append]
    omega
theorem jfuelK_le_emitMembers : ∀ (lvl : Nat) (kvs : List (String × Json)),
    jfuelK kvs ≤ (emitMembers lvl kvs).length
  | _, [] => by simp [jfuelK, emitMembers]
  | lvl, ⟨k, v⟩ :: kvs => by
    have h1 := jfuel_le_emitVal lvl v
    have h2 := jfuelK_le_emitMembers lvl kvs
    simp only [jfuelK, emitMembers, emitMember, List.length_cons,
      List.length_append]
    omega
end

theorem wsOnly_newline_indent (lv : Nat) :
    wsOnly ('\n' :: indentChars lv) = true := by
  simp only [wsOnly, List.all_cons, Bool.and_eq_true]
  exact ⟨rfl, wsOnly_indentChars lv⟩

theorem parseVal_not_ws (fuel : Nat) (c : Char) (r : List Char)
    (h : isWsChar c = false) :
    parseVal (fuel + 1) (c :: r) =
      if c.toNat = 110 then
        (dropLit ['u', 'l', 'l'] r).map fun r2 => (Json.null, r2)
      else if c.toNat = 116 then
        (dropLit ['r', 'u', 'e'] r).map fun r2 => (Json.bool true, r2)
      else if c.toNat = 102 then
        (dropLit ['a', 'l', 's', 'e'] r).map fun r2 => (Json.bool false, r2)
      else if c.toNat = 34 then
        (parseStringBody r).map fun p => (Json.str ⟨p.1⟩, p.2)
      else if c.toNat = 91 then
        (parseElems fuel r).map fun p => (Json.arr p.1, p.2)
      else if c.toNat = 123 then
        (parseKvs fuel r).map fun p => (Json.obj p.1, p.2)
      else if c.toNat = 45 then
        (parseNat r).map fun p => (Json.num (-(p.1 : Int)), p.2)
      else if isDigitChar c then
        (parseNat (c :: r)).map fun p => (Json.num (p.1 : Int), p.2)
      else none := by
  simp only [parseVal, skipWs_cons_false c r h]

theorem parseElems_not_ws (fuel : Nat) (c : Char) (r : List Char)
    (h : isWsChar c = false) :
    parseElems (fuel + 1) (c :: r) =
      if c.toNat = 93 then some ([], r)
      else
        match parseVal fuel (c :: r) with
        | none => none
        | some (v, r1) =>
          match parseElemsTail fuel r1 with
          | none => none
          | some (vs, r2) => some (v :: vs, r2) := by
  simp only [parseElems, skipWs_cons_false c r h]

theorem parseElemsTail_not_ws (fuel : Nat) (c : Char) (r : List Char)
    (h : isWsChar c = false) :
    parseElemsTail (fuel + 1) (c :: r) =
      if c.toNat = 93 then some ([], r)
      else if c.toNat = 44 then
        match parseVal fuel r with
        | none => none
        | some (v, r1) =>
          match parseElemsTail fuel r1 with
          | none => none
          | some (vs, r2) => some (v :: vs, r2)
      else none := by
  simp only [parseElemsTail, skipWs_cons_false c r h]

theorem parseKvs_not_ws (fuel : Nat) (c : Char) (r : List Char)
    (h : isWsChar c = false) :
    parseKvs (fuel + 1) (c :: r) =
      if c.toNat = 125 then some ([], r)
      else if c.toNat = 34 then
        match parseStringBody r with
        | none => none
        | some (k, r1) =>
          match expectColon r1 with
          | none => none
          | some r2 =>
            match parseVal fuel r2 with
            | none => none
            | some (v, r3) =>
              match parseKvsTail fuel r3 with
              | none => none
              | some (ms, r4) => some ((⟨k⟩, v) :: ms, r4)
      else none := by
  simp only [parseKvs, skipWs_cons_false c r h]

theorem parseKvsTail_not_ws (fuel : Nat) (c : Char) (r : List Char)
    (h : isWsChar c = false) :
    parseKvsTail (fuel + 1) (c :: r) =
      if c.toNat = 125 then some ([], r)
      else if c.toNat = 44 then
        match expectQuote r with
        | none => none
        | some r1 =>
          match parseStringBody r1 with
          | none => none
          | some (k, r2) =>
            match expectColon r2 with
            | none => none
            | some r3 =>
              match parseVal fuel r3 with
              | none => none
              | some (v, r4) =>
                match parseKvsTail fuel r4 with
                | none => none
                | some (ms, r5) => some ((⟨k⟩, v) :: ms, r5)
      else none := by
  simp only [parseKvsTail, skipWs_cons_false c r h]

theorem parseElems_ws (fuel : Nat) (pre cs : List Char)
    (h : wsOnly pre = true) :
    parseElems fuel (pre ++ cs) = parseElems fuel cs := by
  cases fuel with
  | zero => rfl
  | succ fuel => simp only [parseElems, skipWs_append pre cs h]

theorem parseKvs_ws (fuel : Nat) (pre cs : List Char)
    (h : wsOnly pre = true) :
    parseKvs fuel (pre ++ cs) = parseKvs fuel cs := by
  cases fuel with
  | zero => rfl
  | succ fuel => simp only [parseKvs, skipWs_append pre cs h]

theorem parseElemsTail_ws (fuel : Nat) (pre cs : List Char)
    (h : wsOnly pre = true) :
    parseElemsTail fuel (pre ++ cs) = parseElemsTail fuel cs := by
  cases fuel with
  | zero => rfl
  | succ fuel => simp only [parseElemsTail, skipWs_append pre cs h]

theorem parseKvsTail_ws (fuel : Nat) (pre cs : List Char)
    (h : wsOnly pre = true) :
    parseKvsTail fuel (pre ++ cs) = parseKvsTail fuel cs := by
  cases fuel with
  | zero => rfl
  | succ fuel => simp only [parseKvsTail, skipWs_append pre cs h]

theorem expectColon_cons (Z : List Char) : expectColon (':' :: Z) = some Z := by
  simp [expectColon, skipWs_cons_false ':' Z (by decide),
    show (':').toNat = 58 from rfl]

theorem expectQuote_pre (pre Z : List Char) (h : wsOnly pre = true) :
    expectQuote (pre ++ ('"' :: Z)) = some Z := by
  simp [expectQuote, skipWs_append pre _ h,
    skipWs_cons_false '"' Z (by decide), show ('"').toNat = 34 from rfl]

theorem jfuel_pos (w : Json) : 1 ≤ jfuel w := by
  cases w <;> simp [jfuel] <;> omega

theorem parse_roundtrip (fuel : Nat) :
    (∀ (w : Json) (lvl : Nat) (rest : List Char), wfJson w = true →
      jfuel w ≤ fuel → headNotDigitB rest = true →
      parseVal fuel (emitVal lvl w ++ rest) = some (w, rest)) ∧
    (∀ (x : Json) (xs : List Json) (lv lv0 : Nat) (rest : List Char),
      wfJson x = true → wfList xs = true → jfuelL (x :: xs) + 1 ≤ fuel →
      parseElems fuel (('\n' :: indentChars lv) ++ (emitVal lv x ++
        (emitItems lv xs ++ (('\n' :: indentChars lv0) ++ (']' :: rest))))) =
        some (x :: xs, rest)) ∧
    (∀ (xs : List Json) (lv lv0 : Nat) (rest : List Char),
      wfList xs = true → jfuelL xs + 1 ≤ fuel →
      parseElemsTail fuel (emitItems lv xs ++ (('\n' :: indentChars lv0) ++
        (']' :: rest))) = some (xs, rest)) ∧
    (∀ (k : String) (v : Json) (kvs : List (String × Json)) (lv lv0 : Nat)
      (rest : List Char),
      plainStr k = true → wfJson v = true → wfKvs kvs = true →
      jfuelK ((k, v) :: kvs) + 1 ≤ fuel →
      parseKvs fuel (('\n' :: indentChars lv) ++ (emitMember lv (k, v) ++
        (emitMembers lv kvs ++ (('\n' :: indentChars lv0) ++
          ('\x7d' :: rest))))) = some ((k, v) :: kvs, rest)) ∧
    (∀ (kvs : List (String × Json)) (lv lv0 : Nat) (rest : List Char),
      wfKvs kvs = true → jfuelK kvs + 1 ≤ fuel →
      parseKvsTail fuel (emitMembers lv kvs ++ (('\n' :: indentChars lv0) ++
        ('\x7d' :: rest))) = some (kvs, rest)) := by
  induction fuel using Nat.strong_induction_on with
  | _ fuel ih =>
  refine ⟨?_, ?_, ?_, ?_, ?_⟩
  · -- parseVal on an emitted value
    intro w lvl rest hw hf hrest
    cases fuel with
    | zero => exact absurd hf (by have := jfuel_pos w; omega)
    | succ f =>
    cases w with
    | null =>
      simp only [emitVal, List.cons_append, List.nil_append]
      rw [parseVal_not_ws f 'n' _ (by decide)]
      simp [dropLit]
    | bool b =>
      cases b with
      | true =>
        simp only [emitVal, List.cons_append, List.nil_append]
        rw [parseVal_not_ws f 't' _ (by decide)]
        simp [dropLit]
      | false =>
        simp only [emitVal, List.cons_append, List.nil_append]
        rw [parseVal_not_ws f 'f' _ (by decide)]
        simp [dropLit]
    | num n =>
      cases n with
      | ofNat m =>
        obtain ⟨c, t, hct, h48, h57⟩ := printNat_head m
        have hws : isWsChar c = false := by
          simp only [isWsChar, Bool.or_eq_false_iff, decide_eq_false_iff_not]
          omega
        have hdig : isDigitChar c = true := by
          simp only [isDigitChar, Bool.and_eq_true, decide_eq_true_eq]
          omega
        show parseVal (f + 1) (printNat m ++ rest) = _
        rw [hct, List.cons_append, parseVal_not_ws f c _ hws,
          if_neg (by omega), if_neg (by omega), if_neg (by omega),
          if_neg (by omega), if_neg (by omega), if_neg (by omega),
          if_neg (by omega), if_pos hdig, ← List.cons_append, ← hct,
          parseNat_printNat m rest hrest]
        rfl
      | negSucc m =>
        show parseVal (f + 1) (('-' :: printNat (m + 1)) ++ rest) = _
        rw [List.cons_append, parseVal_not_ws f '-' _ (by decide),
          if_neg (by decide), if_neg (by decide), if_neg (by decide),
          if_neg (by decide), if_neg (by decide), if_neg (by decide),
          if_pos (by decide), parseNat_printNat (m + 1) rest hrest]
        show some (Json.num (-((m : Int) + 1)), rest) = _
        rfl
    | str s =>
      show parseVal (f + 1) (('"' :: (s.data ++ ['"'])) ++ rest) = _
      rw [List.cons_append, List.append_assoc, List.singleton_append,
        parseVal_not_ws f '"' _ (by decide), if_neg (by decide),
        if_neg (by decide), if_neg (by decide), if_pos (by decide),
        parseStringBody_plain s.data rest hw]
      rfl
    | arr xs =>
      cases xs with
      | nil =>
        have hf2 : 1 ≤ f := by
          have : jfuel (Json.arr []) = 2 := rfl
          omega
        cases f with
        | zero => omega
        | succ f2 =>
        show parseVal (f2 + 1 + 1) (('[' :: (']' :: [])) ++ rest) = _
        rw [List.cons_append, parseVal_not_ws (f2 + 1) '[' _ (by decide),
          if_neg (by decide), if_neg (by decide), if_neg (by decide),
          if_neg (by decide), if_pos (by decide)]
        rw [show (']' :: []) ++ rest = ']' :: rest from rfl,
          parseElems_not_ws f2 ']' rest (by decide), if_pos (by decide)]
        rfl
      | cons x xs =>
        have hwx : wfJson x = true ∧ wfList xs = true := by
          simpa [wfJson, wfList, Bool.and_eq_true] using hw
        have hjf : jfuel (Json.arr (x :: xs)) = 2 + jfuelL (x :: xs) := rfl
        show parseVal (f + 1)
          (('[' :: '\n' :: (indentChars (lvl + 1) ++
            (emitVal (lvl + 1) x ++ (emitItems (lvl + 1) xs ++
              ('\n' :: (indentChars lvl ++ [']'])))))) ++ rest) = _
        rw [List.cons_append, parseVal_not_ws f '[' _ (by decide),
          if_neg (by decide), if_neg (by decide), if_neg (by decide),
          if_neg (by decide), if_pos (by decide)]
        have helems := (ih f (Nat.lt_succ_self f)).2.1 x xs (lvl + 1) lvl rest
          hwx.1 hwx.2 (by omega)
        have hshape : ('\n' :: (indentChars (lvl + 1) ++
            (emitVal (lvl + 1) x ++ (emitItems (lvl + 1) xs ++
              ('\n' :: (indentChars lvl ++ [']'])))))) ++ rest =
            ('\n' :: indentChars (lvl + 1)) ++ (emitVal (lvl + 1) x ++
              (emitItems (lvl + 1) xs ++ (('\n' :: indentChars lvl) ++
                (']' :: rest)))) := by
          simp [List.cons_append, List.append_assoc]
        rw [hshape, helems]
        rfl
    | obj kvs =>
      cases kvs with
      | nil =>
        have hf2 : 1 ≤ f := by
          have : jfuel (Json.obj []) = 2 := rfl
          omega
        cases f with
        | zero => omega
        | succ f2 =>
        show parseVal (f2 + 1 + 1) (('\x7b' :: ('\x7d' :: [])) ++ rest) = _
        rw [List.cons_append, parseVal_not_ws (f2 + 1) '\x7b' _ (by decide),
          if_neg (by decide), if_neg (by decide), if_neg (by decide),
          if_neg (by decide), if_neg (by decide), if_pos (by decide)]
        rw [show ('\x7d' :: []) ++ rest = '\x7d' :: rest from rfl,
          parseKvs_not_ws f2 '\x7d' rest (by decide), if_pos (by decide)]
        rfl
      | cons kv kvs =>
        obtain ⟨k, v⟩ := kv
        have hw2 : (plainStr k = true ∧ wfJson v = true) ∧ wfKvs kvs = true := by
          have : wfJson (Json.obj ((k, v) :: kvs)) =
              (keysDistinct ((k, v) :: kvs) && wfKvs ((k, v) :: kvs)) := rfl
          rw [this] at hw
          simp only [Bool.and_eq_true] at hw
          have := hw.2
          simpa [wfKvs, Bool.and_eq_true] using this
        have hjf : jfuel (Json.obj ((k, v) :: kvs)) =
            2 + jfuelK ((k, v) :: kvs) := rfl
        show parseVal (f + 1)
          (('\x7b' :: '\n' :: (indentChars (lvl + 1) ++
            (emitMember (lvl + 1) (k, v) ++ (emitMembers (lvl + 1) kvs ++
              ('\n' :: (indentChars lvl ++ ['\x7d'])))))) ++ rest) = _
        rw [List.cons_append, parseVal_not_ws f '\x7b' _ (by decide),
          if_neg (by decide), if_neg (by decide), if_neg (by decide),
          if_neg (by decide), if_neg (by decide), if_pos (by decide)]
        have hkvs := (ih f (Nat.lt_succ_self f)).2.2.2.1 k v kvs (lvl + 1) lvl
          rest hw2.1.1 hw2.1.2 hw2.2 (by omega)
        have hshape : ('\n' :: (indentChars (lvl + 1) ++
            (emitMember (lvl + 1) (k, v) ++ (emitMembers (lvl + 1) kvs ++
              ('\n' :: (indentChars lvl ++ ['\x7d'])))))) ++ rest =
            ('\n' :: indentChars (lvl + 1)) ++ (emitMember (lvl + 1) (k, v) ++
              (emitMembers (lvl + 1) kvs ++ (('\n' :: indentChars lvl) ++
                ('\x7d' :: rest)))) := by
          simp [List.cons_append, List.append_assoc]
        rw [hshape, hkvs]
        rfl
  · -- parseElems on a non-empty emitted array body
    intro x xs lv lv0 rest hwx hwxs hfl
    have e1 : jfuelL (x :: xs) = 1 + jfuel x + jfuelL xs := rfl
    cases fuel with
    | zero => omega
    | succ f =>
    rw [parseElems_ws (f + 1) ('\n' :: indentChars lv) _
      (wsOnly_newline_indent lv)]
    obtain ⟨c, t, hct, hcls⟩ := emitVal_head lv x
    have hfacts := head_class_facts hcls
    have hres : parseVal f (emitVal lv x ++ (emitItems lv xs ++
        (('\n' :: indentChars lv0) ++ (']' :: rest)))) =
        some (x, emitItems lv xs ++ (('\n' :: indentChars lv0) ++
          (']' :: rest))) := by
      refine (ih f (Nat.lt_succ_self f)).1 x lv _ hwx (by omega) ?_
      exact headNotDigit_emitItems lv xs (indentChars lv0 ++ (']' :: rest))
    have htail : parseElemsTail f (emitItems lv xs ++
        (('\n' :: indentChars lv0) ++ (']' :: rest))) = some (xs, rest) :=
      (ih f (Nat.lt_succ_self f)).2.2.1 xs lv lv0 rest hwxs (by omega)
    rw [hct, List.cons_append, parseElems_not_ws f c _ hfacts.1,
      if_neg (by omega), ← List.cons_append, ← hct]
    simp only [hres, htail]
  · -- parseElemsTail after one emitted array element
    intro xs lv lv0 rest hwxs hfl
    cases fuel with
    | zero => omega
    | succ f =>
    cases xs with
    | nil =>
      show parseElemsTail (f + 1) (('\n' :: indentChars lv0) ++
        (']' :: rest)) = _
      rw [parseElemsTail_ws (f + 1) ('\n' :: indentChars lv0) _
        (wsOnly_newline_indent lv0),
        parseElemsTail_not_ws f ']' rest (by decide), if_pos (by decide)]
    | cons x xs2 =>
      have hw2 : wfJson x = true ∧ wfList xs2 = true := by
        simpa [wfList, Bool.and_eq_true] using hwxs
      have e1 : jfuelL (x :: xs2) = 1 + jfuel x + jfuelL xs2 := rfl
      show parseElemsTail (f + 1)
        ((',' :: '\n' :: (indentChars lv ++ (emitVal lv x ++
          emitItems lv xs2))) ++ (('\n' :: indentChars lv0) ++
            (']' :: rest))) = _
      rw [List.cons_append, parseElemsTail_not_ws f ',' _ (by decide),
        if_neg (by decide), if_pos (by decide)]
      have hres : parseVal f (('\n' :: (indentChars lv ++ (emitVal lv x ++
          emitItems lv xs2))) ++ (('\n' :: indentChars lv0) ++
            (']' :: rest))) =
          some (x, emitItems lv xs2 ++ (('\n' :: indentChars lv0) ++
            (']' :: rest))) := by
        have hmove : (('\n' :: (indentChars lv ++ (emitVal lv x ++
            emitItems lv xs2))) ++ (('\n' :: indentChars lv0) ++
              (']' :: rest))) =
            ('\n' :: indentChars lv) ++ (emitVal lv x ++
              (emitItems lv xs2 ++ (('\n' :: indentChars lv0) ++
                (']' :: rest)))) := by
          simp [List.cons_append, List.append_assoc]
        rw [hmove, parseVal_ws f ('\n' :: indentChars lv) _
          (wsOnly_newline_indent lv)]
        refine (ih f (Nat.lt_succ_self f)).1 x lv _ hw2.1 (by omega) ?_
        exact headNotDigit_emitItems lv xs2 (indentChars lv0 ++ (']' :: rest))
      have htail : parseElemsTail f (emitItems lv xs2 ++
          (('\n' :: indentChars lv0) ++ (']' :: rest))) =
          some (xs2, rest) :=
        (ih f (Nat.lt_succ_self f)).2.2.1 xs2 lv lv0 rest hw2.2 (by omega)
      simp only [hres, htail]
  · -- parseKvs on a non-empty emitted object body
    intro k v kvs lv lv0 rest hpk hwv hwkvs hfl
    have e1 : jfuelK ((k, v) :: kvs) = 1 + jfuel v + jfuelK kvs := rfl
    cases fuel with
    | zero => omega
    | succ f =>
    rw [parseKvs_ws (f + 1) ('\n' :: indentChars lv) _
      (wsOnly_newline_indent lv)]
    show parseKvs (f + 1) (('"' :: (k.data ++
      ('"' :: ':' :: ' ' :: emitVal lv v))) ++ (emitMembers lv kvs ++
        (('\n' :: indentChars lv0) ++ ('\x7d' :: rest)))) = _
    rw [List.cons_append, parseKvs_not_ws f '"' _ (by decide),
      if_neg (by decide), if_pos (by decide)]
    have hstr : parseStringBody (k.data ++ ('"' :: ':' :: ' ' ::
        emitVal lv v) ++ (emitMembers lv kvs ++ (('\n' :: indentChars lv0) ++
          ('\x7d' :: rest)))) =
        some (k.data, ':' :: ' ' :: emitVal lv v ++ (emitMembers lv kvs ++
          (('\n' :: indentChars lv0) ++ ('\x7d' :: rest)))) := by
      have hmove : k.data ++ ('"' :: ':' :: ' ' :: emitVal lv v) ++
          (emitMembers lv kvs ++ (('\n' :: indentChars lv0) ++
            ('\x7d' :: rest))) =
          k.data ++ ('"' :: (':' :: ' ' :: emitVal lv v ++
            (emitMembers lv kvs ++ (('\n' :: indentChars lv0) ++
              ('\x7d' :: rest))))) := by
        simp [List.cons_append, List.append_assoc]
      rw [hmove]
      exact parseStringBody_plain k.data _ hpk
    have hcolon : expectColon (':' :: ' ' :: emitVal lv v ++
        (emitMembers lv kvs ++ (('\n' :: indentChars lv0) ++
          ('\x7d' :: rest)))) =
        some (' ' :: emitVal lv v ++ (emitMembers lv kvs ++
          (('\n' :: indentChars lv0) ++ ('\x7d' :: rest)))) :=
      expectColon_cons _
    have hres : parseVal f (' ' :: emitVal lv v ++ (emitMembers lv kvs ++
        (('\n' :: indentChars lv0) ++ ('\x7d' :: rest)))) =
        some (v, emitMembers lv kvs ++ (('\n' :: indentChars lv0) ++
          ('\x7d' :: rest))) := by
      have hmove : ' ' :: emitVal lv v ++ (emitMembers lv kvs ++
          (('\n' :: indentChars lv0) ++ ('\x7d' :: rest))) =
          [' '] ++ (emitVal lv v ++ (emitMembers lv kvs ++
            (('\n' :: indentChars lv0) ++ ('\x7d' :: rest)))) := by
        simp
      rw [hmove, parseVal_ws f [' '] _ (by decide)]
      refine (ih f (Nat.lt_succ_self f)).1 v lv _ hwv (by omega) ?_
      exact headNotDigit_emitMembers lv kvs (indentChars lv0 ++
        ('\x7d' :: rest))
    have htail : parseKvsTail f (emitMembers lv kvs ++
        (('\n' :: indentChars lv0) ++ ('\x7d' :: rest))) =
        some (kvs, rest) :=
      (ih f (Nat.lt_succ_self f)).2.2.2.2 kvs lv lv0 rest hwkvs (by omega)
    simp only [hstr, hcolon, hres, htail]
  · -- parseKvsTail after one emitted object member
    intro kvs lv lv0 rest hwkvs hfl
    cases fuel with
    | zero => omega
    | succ f =>
    cases kvs with
    | nil =>
      show parseKvsTail (f + 1) (('\n' :: indentChars lv0) ++
        ('\x7d' :: rest)) = _
      rw [parseKvsTail_ws (f + 1) ('\n' :: indentChars lv0) _
        (wsOnly_newline_indent lv0),
        parseKvsTail_not_ws f '\x7d' rest (by decide), if_pos (by decide)]
    | cons kv kvs2 =>
      obtain ⟨k, v⟩ := kv
      have hw2 : (plainStr k = true ∧ wfJson v = true) ∧ wfKvs kvs2 = true := by
        simpa [wfKvs, Bool.and_eq_true] using hwkvs
      have e1 : jfuelK ((k, v) :: kvs2) = 1 + jfuel v + jfuelK kvs2 := rfl
      show parseKvsTail (f + 1)
        ((',' :: '\n' :: (indentChars lv ++ (emitMember lv (k, v) ++
          emitMembers lv kvs2))) ++ (('\n' :: indentChars lv0) ++
            ('\x7d' :: rest))) = _
      rw [List.cons_append, parseKvsTail_not_ws f ',' _ (by decide),
        if_neg (by decide), if_pos (by decide)]
      have hquote : expectQuote (('\n' :: (indentChars lv ++
          (emitMember lv (k, v) ++ emitMembers lv kvs2))) ++
            (('\n' :: indentChars lv0) ++ ('\x7d' :: rest))) =
          some (k.data ++ ('"' :: ':' :: ' ' :: emitVal lv v) ++
            (emitMembers lv kvs2 ++ (('\n' :: indentChars lv0) ++
              ('\x7d' :: rest)))) := by
        have hmove : (('\n' :: (indentChars lv ++ (emitMember lv (k, v) ++
            emitMembers lv kvs2))) ++ (('\n' :: indentChars lv0) ++
              ('\x7d' :: rest))) =
            ('\n' :: indentChars lv) ++ ('"' :: (k.data ++
              ('"' :: ':' :: ' ' :: emitVal lv v) ++
                (emitMembers lv kvs2 ++ (('\n' :: indentChars lv0) ++
                  ('\x7d' :: rest))))) := by
          simp [emitMember, List.cons_append, List.append_assoc]
        rw [hmove]
        exact expectQuote_pre ('\n' :: indentChars lv) _
          (wsOnly_newline_indent lv)
      have hstr : parseStringBody (k.data ++ ('"' :: ':' :: ' ' ::
          emitVal lv v) ++ (emitMembers lv kvs2 ++
            (('\n' :: indentChars lv0) ++ ('\x7d' :: rest)))) =
          some (k.data, ':' :: ' ' :: emitVal lv v ++
            (emitMembers lv kvs2 ++ (('\n' :: indentChars lv0) ++
              ('\x7d' :: rest)))) := by
        have hmove : k.data ++ ('"' :: ':' :: ' ' :: emitVal lv v) ++
            (emitMembers lv kvs2 ++ (('\n' :: indentChars lv0) ++
              ('\x7d' :: rest))) =
            k.data ++ ('"' :: (':' :: ' ' :: emitVal lv v ++
              (emitMembers lv kvs2 ++ (('\n' :: indentChars lv0) ++
                ('\x7d' :: rest))))) := by
          simp [List.cons_append, List.append_assoc]
        rw [hmove]
        exact parseStringBody_plain k.data _ hw2.1.1
      have hcolon : expectColon (':' :: ' ' :: emitVal lv v ++
          (emitMembers lv kvs2 ++ (('\n' :: indentChars lv0) ++
            ('\x7d' :: rest)))) =
          some (' ' :: emitVal lv v ++ (emitMembers lv kvs2 ++
            (('\n' :: indentChars lv0) ++ ('\x7d' :: rest)))) :=
        expectColon_cons _
      have hres : parseVal f (' ' :: emitVal lv v ++ (emitMembers lv kvs2 ++
          (('\n' :: indentChars lv0) ++ ('\x7d' :: rest)))) =
          some (v, emitMembers lv kvs2 ++ (('\n' :: indentChars lv0) ++
            ('\x7d' :: rest))) := by
        have hmove : ' ' :: emitVal lv v ++ (emitMembers lv kvs2 ++
            (('\n' :: indentChars lv0) ++ ('\x7d' :: rest))) =
            [' '] ++ (emitVal lv v ++ (emitMembers lv kvs2 ++
              (('\n' :: indentChars lv0) ++ ('\x7d' :: rest)))) := by
          simp
        rw [hmove, parseVal_ws f [' '] _ (by decide)]
        refine (ih f (Nat.lt_succ_self f)).1 v lv _ hw2.1.2 (by omega) ?_
        exact headNotDigit_emitMembers lv kvs2 (indentChars lv0 ++
          ('\x7d' :: rest))
      have htail : parseKvsTail f (emitMembers lv kvs2 ++
          (('\n' :: indentChars lv0) ++ ('\x7d' :: rest))) =
          some (kvs2, rest) :=
        (ih f (Nat.lt_succ_self f)).2.2.2.2 kvs2 lv lv0 rest hw2.2 (by omega)
      simp only [hquote, hstr, hcolon, hres, htail]

theorem loads_dumps (v : Json) (h : wfJson v = true) :
    loads (dumps v) = some (sortKeysJson v) := by
  have hwf := wf_sortKeysJson v h
  have hfuel := jfuel_le_emitVal 0 (sortKeysJson v)
  have hmain := (parse_roundtrip ((emitVal 0 (sortKeysJson v)).length + 1)).1
    (sortKeysJson v) 0 [] hwf (by omega) rfl
  rw [List.append_nil] at hmain
  show (match parseVal ((emitVal 0 (sortKeysJson v)).length + 1)
      (emitVal 0 (sortKeysJson v)) with
    | none => none
    | some (v2, rest) => if skipWs rest = [] then some v2 else none) =
    some (sortKeysJson v)
  simp only [hmain]
  rfl

/-- C2: a JSON object returned by the server comes back from the wrapper
unchanged up to object-member order: `submit` re-parses the body and
re-serializes its value with sorted keys, the wrapper parses that string
back, and parse-reserialize-parse is the identity on JSON values up to the
key reordering, which preserves the value as a Python dict
(`jsonSim`).  In particular `get_wallet_balance` returns exactly the
mock value the transport delivered. -/
theorem get_wallet_balance_roundtrip (v : Json) (t : Transport)
    (body : String) (wallet_id : Int) (hwf : wfJson v = true)
    (ht : t (Wallet.get_wallet_balance_request wallet_id) = Except.ok body)
    (hbody : loads body = some v) :
    Wallet.get_wallet_balance wallet_id t = Except.ok (sortKeysJson v) ∧
    loads (dumps v) = some (sortKeysJson v) ∧
    jsonSim (sortKeysJson v) v := by
  refine ⟨?_, loads_dumps v hwf, jsonSim_sortKeys v⟩
  unfold Wallet.get_wallet_balance rawCall submitResult
  rw [ht]
  simp only [hbody, loads_dumps v hwf]

theorem get_wallet_balance_roundtrip_witness :
    Wallet.get_wallet_balance 1
        (fun _ => Except.ok
          "\x7b\"success\": true, \"wallet_id\": 1, \"balance\": 100\x7d") =
      Except.ok (sortKeysJson (Json.obj
        [("success", Json.bool true), ("wallet_id", Json.num 1),
         ("balance", Json.num 100)])) ∧
    loads (dumps (Json.obj [("success", Json.bool true),
        ("wallet_id", Json.num 1), ("balance", Json.num 100)])) =
      some (sortKeysJson (Json.obj [("success", Json.bool true),
        ("wallet_id", Json.num 1), ("balance", Json.num 100)])) ∧
    jsonSim (sortKeysJson (Json.obj [("success", Json.bool true),
        ("wallet_id", Json.num 1), ("balance", Json.num 100)]))
      (Json.obj [("success", Json.bool true), ("wallet_id", Json.num 1),
        ("balance", Json.num 100)]) :=
  get_wallet_balance_roundtrip
    (Json.obj [("success", Json.bool true), ("wallet_id", Json.num 1),
      ("balance", Json.num 100)])
    (fun _ => Except.ok
      "\x7b\"success\": true, \"wallet_id\": 1, \"balance\": 100\x7d")
    "\x7b\"success\": true, \"wallet_id\": 1, \"balance\": 100\x7d"
    1 rfl rfl rfl
